import Mathlib

/-!
# Verification of the windowmesh coordination engine

A shallow embedding of the coordination engine of the `windowmesh`
repository: the per-peer state store, the leader election, the layout
recomputation pipeline, the gossip protocol handler, the lifecycle loop,
the session-id derivation and the layout-descriptor codec.

Modelling conventions:

* JavaScript numbers are modelled as `Int` (the spec's data model is
  "integer-or-real"; all protocol arithmetic here is exact).  Similarity
  scores and the stable tie-break hash, which divide, are computed in `ℚ`.
* JavaScript objects used as string-keyed maps (`windows`, `sharedData`)
  are modelled as association lists with JS insertion-order semantics:
  writing an existing key updates it in place, writing a new key appends.
* A thrown exception is modelled by an `ok : Bool` flag in the result of
  each operation: `ok = false` means the operation raised; the state and
  message list carry what had been committed / broadcast before the raise
  (the store has no rollback).
* `Date.now()` is passed in explicitly as a `now : Int` argument.
* `localeCompare` on peer ids is modelled as lexicographic order on
  strings; `charCodeAt` as UTF-16 code units.
-/

namespace WindowMesh

/-- `Rect` from `types.ts`: `{ x, y, w, h }`. -/
structure Rect where
  x : Int
  y : Int
  w : Int
  h : Int
  deriving DecidableEq, Repr

/-- `VflScreen` from `types.ts`: a `Rect` plus a stable `id` and an
optional `scale`. -/
structure VflScreen where
  id : String
  x : Int
  y : Int
  w : Int
  h : Int
  scale : Option Int := none
  deriving DecidableEq, Repr

/-- The `Rect` part of a screen (TS uses structural subtyping). -/
def VflScreen.toRect (s : VflScreen) : Rect :=
  { x := s.x, y := s.y, w := s.w, h := s.h }

/-- `VflLayout` from `types.ts`; the literal field `v : 1` is carried by
the type itself. -/
structure VflLayout where
  frame : Rect
  screens : List VflScreen
  deriving DecidableEq, Repr

/-- `WindowSnapshot` from `types.ts`. -/
structure WindowSnapshot where
  id : String
  createdAt : Int
  lastSeen : Int
  rect : Rect
  assignedScreenId : Option String := none
  virtualRect : Option Rect := none
  viewportOffset : Option (Int × Int) := none
  timestamp : Int
  deriving DecidableEq, Repr

/-! ## Leader election (`EngineLeaderElection.ts`) -/

/-- The comparator of `sortCandidatesForLeadership`, as a relation:
`a` precedes `b` when `a.createdAt < b.createdAt`, ties broken by
lexicographic id (`localeCompare`). -/
def leaderLe (a b : WindowSnapshot) : Prop :=
  a.createdAt < b.createdAt ∨ (a.createdAt = b.createdAt ∧ a.id ≤ b.id)

instance : DecidableRel leaderLe := fun a b => by
  unfold leaderLe; infer_instance

instance : IsTotal WindowSnapshot leaderLe where
  total a b := by
    rcases lt_trichotomy a.createdAt b.createdAt with h | h | h
    · exact Or.inl (Or.inl h)
    · rcases le_total a.id b.id with h2 | h2
      · exact Or.inl (Or.inr ⟨h, h2⟩)
      · exact Or.inr (Or.inr ⟨h.symm, h2⟩)
    · exact Or.inr (Or.inl h)

instance : IsTrans WindowSnapshot leaderLe where
  trans a b c hab hbc := by
    rcases hab with h | ⟨he, hi⟩
    · rcases hbc with h2 | ⟨he2, _⟩
      · exact Or.inl (h.trans h2)
      · exact Or.inl (he2 ▸ h)
    · rcases hbc with h2 | ⟨he2, hi2⟩
      · exact Or.inl (he ▸ h2)
      · exact Or.inr ⟨he.trans he2, hi.trans hi2⟩

theorem leaderLe_refl (a : WindowSnapshot) : leaderLe a a :=
  Or.inr ⟨rfl, le_refl _⟩

/-- `sortCandidatesForLeadership` from `EngineLeaderElection.ts`:
stable sort by `(createdAt ascending, id ascending)`. -/
def sortCandidatesForLeadership (candidates : List WindowSnapshot) : List WindowSnapshot :=
  List.insertionSort leaderLe candidates

/-- Result type of `selectLeader`. -/
structure LeaderResult where
  leaderId : Option String
  isMe : Bool
  deriving DecidableEq, Repr

/-- The candidate filter inside `selectLeader`: all known windows plus
self, keeping those with `now - lastSeen < timeout`. -/
def activeCandidates (allWindows : List WindowSnapshot) (myWindow : WindowSnapshot)
    (timeout now : Int) : List WindowSnapshot :=
  (allWindows ++ [myWindow]).filter (fun w => now - w.lastSeen < timeout)

/-- `selectLeader` from `EngineLeaderElection.ts`. -/
def selectLeader (allWindows : List WindowSnapshot) (myWindow : WindowSnapshot)
    (timeout now : Int) : LeaderResult :=
  match sortCandidatesForLeadership (activeCandidates allWindows myWindow timeout now) with
  | [] => { leaderId := none, isMe := false }
  | leader :: _ => { leaderId := some leader.id, isMe := leader.id == myWindow.id }

theorem sortCandidates_perm (l : List WindowSnapshot) :
    (sortCandidatesForLeadership l).Perm l :=
  List.perm_insertionSort _ l

theorem sortCandidates_sorted (l : List WindowSnapshot) :
    List.Sorted leaderLe (sortCandidatesForLeadership l) :=
  List.sorted_insertionSort _ l

/-! ## Rect utilities and layout validation (`utils/vfl.ts`) -/

/-- `unionRects` from `vfl.ts`: the axis-aligned bounding box of a list of
rects.  The engine never calls it on an empty list (JS would produce an
infinite rect there); we return the zero rect in that case. -/
def unionRects (rects : List Rect) : Rect :=
  match rects with
  | [] => ⟨0, 0, 0, 0⟩
  | r :: rs =>
    let minX := rs.foldl (fun m q => min m q.x) r.x
    let minY := rs.foldl (fun m q => min m q.y) r.y
    let maxX := rs.foldl (fun m q => max m (q.x + q.w)) (r.x + r.w)
    let maxY := rs.foldl (fun m q => max m (q.y + q.h)) (r.y + r.h)
    ⟨minX, minY, maxX - minX, maxY - minY⟩

/-- The `RectZ` zod schema: `w` and `h` strictly positive. -/
def rectZValid (r : Rect) : Bool :=
  decide (0 < r.w) && decide (0 < r.h)

/-- The `ScreenZ` zod schema: `RectZ` plus a non-empty `id`. -/
def screenZValid (s : VflScreen) : Bool :=
  decide (1 ≤ s.id.length) && decide (0 < s.w) && decide (0 < s.h)

/-- The `LayoutZ` zod schema: version literal, valid frame, at least one
valid screen. -/
def layoutZValid (L : VflLayout) : Bool :=
  rectZValid L.frame && decide (1 ≤ L.screens.length) && L.screens.all screenZValid

/-- `normalizeLayout` from `vfl.ts`: fill in a missing frame as the union
of the screens, then validate against `LayoutZ`.  The zod `parse` throw is
modelled as `none`. -/
def normalizeLayout (frame : Option Rect) (screens : List VflScreen) : Option VflLayout :=
  let f := frame.getD (unionRects (screens.map VflScreen.toRect))
  let normalized : VflLayout := ⟨f, screens⟩
  if layoutZValid normalized then some normalized else none

/-! ## Stable hash and screen assignment (`utils/vfl.ts`) -/

/-- A width/height pair (the `{w, h}` size objects of `vfl.ts`). -/
structure Size where
  w : Int
  h : Int
  deriving DecidableEq, Repr

/-- UTF-16 code units of a character, as `charCodeAt` enumerates them. -/
def utf16Units (c : Char) : List Nat :=
  if c.toNat < 0x10000 then [c.toNat]
  else
    let v := c.toNat - 0x10000
    [0xD800 + v / 0x400, 0xDC00 + v % 0x400]

/-- UTF-16 code units of a string. -/
def strUtf16 (s : String) : List Nat :=
  s.toList.flatMap utf16Units

/-- The FNV-1a-ish 32-bit hash inside `stableRand01`.  `Math.imul` and the
int32 coercions are modelled as arithmetic modulo `2^32` on the bit
pattern. -/
def fnvHash (key : String) : Nat :=
  (strUtf16 key).foldl (fun h c => ((h ^^^ c) * 16777619) % 2 ^ 32) 2166136261

/-- `stableRand01` from `vfl.ts`: deterministic tie-breaker mapped into
`[0, 1)`. -/
def stableRand01 (key : String) : ℚ :=
  ((fnvHash key % 1000000 : ℕ) : ℚ) / 1000000

/-- `calculateDimensionSimilarity` from `vfl.ts`: `1 - (Δw/max + Δh/max)/2`,
clamped to `[0, 1]`, and `0` when any dimension is non-positive. -/
def calculateDimensionSimilarity (a b : Size) : ℚ :=
  if a.w ≤ 0 ∨ a.h ≤ 0 ∨ b.w ≤ 0 ∨ b.h ≤ 0 then 0
  else
    let dw : ℚ := ((a.w - b.w).natAbs : ℚ) / ((max a.w b.w : Int) : ℚ)
    let dh : ℚ := ((a.h - b.h).natAbs : ℚ) / ((max a.h b.h : Int) : ℚ)
    max 0 (1 - (dw + dh) / 2)

/-- The running best of `findBestScreen`. -/
structure BestMatch where
  screenId : Option String
  score : ℚ
  tie : ℚ
  deriving DecidableEq, Repr

/-- The tie-break key used for a screen. -/
def screenTie (windowId : String) (s : VflScreen) : ℚ :=
  stableRand01 (windowId ++ ":" ++ s.id)

/-- One loop iteration of `findBestScreen` inside `assignScreenForWindow`. -/
def findBestStep (windowId : String) (targetSize : Size) (best : BestMatch)
    (s : VflScreen) : BestMatch :=
  let score := calculateDimensionSimilarity targetSize ⟨s.w, s.h⟩
  let tie := screenTie windowId s
  if best.score < score then ⟨some s.id, score, tie⟩
  else if score = best.score ∧ tie < best.tie then ⟨some s.id, score, tie⟩
  else best

/-- `findBestScreen` inside `assignScreenForWindow` (`vfl.ts`): fold over
the screens keeping the highest similarity, ties decided by the smaller
stable hash. -/
def findBestScreen (windowId : String) (targetSize : Size)
    (screens : List VflScreen) : BestMatch :=
  screens.foldl (findBestStep windowId targetSize)
    ⟨screens.head?.map (·.id), -1, 0⟩

/-- Result of `assignScreenForWindow`. -/
structure Assignment where
  screenId : Option String
  score : ℚ
  deriving DecidableEq, Repr

/-- `assignScreenForWindow` from `vfl.ts`: try the physical screen size
first and keep it only when the best similarity reaches the default
`similarityThreshold = 0.8`; otherwise match against the window size. -/
def assignScreenForWindow (windowId : String) (winRect : Rect)
    (screens : List VflScreen) (physicalScreenSize : Option Size) : Assignment :=
  let windowMatch :=
    let m := findBestScreen windowId ⟨winRect.w, winRect.h⟩ screens
    Assignment.mk m.screenId m.score
  match physicalScreenSize with
  | some p =>
    if 0 < p.w ∧ 0 < p.h then
      let layoutMatch := findBestScreen windowId p screens
      if 4 / 5 ≤ layoutMatch.score then ⟨layoutMatch.screenId, layoutMatch.score⟩
      else windowMatch
    else windowMatch
  | none => windowMatch

/-! ## Positioning (`EnginePositioning.ts`) -/

/-- The out-of-band boot environment: URL overrides, the physical display
size from `window.screen`, the decoded static layout, and whether the
transport has finished initialising. -/
structure BootConfig where
  urlScreenId : Option String := none
  urlScreenPosition : Option (Int × Int) := none
  physicalScreenSize : Option Size := none
  staticLayout : Option VflLayout := none
  hasNetwork : Bool := true
  deriving DecidableEq, Repr

/-- `calculateAssignedScreen` from `EnginePositioning.ts`: URL override
first, else dimension-similarity assignment; `none` only when the screen
list is empty (where JS yields `undefined`). -/
def calculateAssignedScreen (cfg : BootConfig) (windowId : String) (winRect : Rect)
    (screens : List VflScreen) : Option VflScreen :=
  let geometric :=
    let assignment := assignScreenForWindow windowId winRect screens cfg.physicalScreenSize
    match assignment.screenId.bind (fun sid => screens.find? (fun s => s.id == sid)) with
    | some s => some s
    | none => screens.head?
  match cfg.urlScreenId with
  | some uid =>
    match screens.find? (fun s => s.id == uid) with
    | some m => some m
    | none => geometric
  | none => geometric

/-- `calculateRelativePosition` from `EnginePositioning.ts`: URL override,
else window origin minus screen origin. -/
def calculateRelativePosition (cfg : BootConfig) (winRect : Rect)
    (screen : VflScreen) : Int × Int :=
  match cfg.urlScreenPosition with
  | some p => p
  | none => (winRect.x - screen.x, winRect.y - screen.y)

/-- `calculateGlobalPosition` from `EnginePositioning.ts`: screen origin
plus relative offset, window size. -/
def calculateGlobalPosition (screen : VflScreen) (relativePos : Int × Int)
    (winW winH : Int) : Rect :=
  ⟨screen.x + relativePos.1, screen.y + relativePos.2, winW, winH⟩

/-! ## Engine state and messages (`types.ts`, `EngineStore.ts`) -/

mutual
/-- A JSON-like value, modelling the `unknown` payloads of the shared-data
map and the parsed layout descriptor (numbers as `Int`).  Arrays and
objects use the mutual list types below. -/
inductive Json where
  | null : Json
  | bool (b : Bool) : Json
  | num (n : Int) : Json
  | str (s : String) : Json
  | arr (elems : JsonList) : Json
  | obj (fields : JsonFields) : Json
  deriving DecidableEq, Repr

/-- A list of JSON values (a JSON array body). -/
inductive JsonList where
  | nil : JsonList
  | cons (hd : Json) (tl : JsonList) : JsonList
  deriving DecidableEq, Repr

/-- An ordered list of JSON object members. -/
inductive JsonFields where
  | nil : JsonFields
  | cons (key : String) (val : Json) (tl : JsonFields) : JsonFields
  deriving DecidableEq, Repr
end

/-- Write into a JS object used as a string-keyed map: an existing key is
updated in place, a new key is appended (insertion order). -/
def listSet {α : Type} (m : List (String × α)) (k : String) (v : α) : List (String × α) :=
  match m with
  | [] => [(k, v)]
  | (k', v') :: rest => if k' = k then (k, v) :: rest else (k', v') :: listSet rest k v

/-- Read from a JS object used as a string-keyed map. -/
def listGet {α : Type} (m : List (String × α)) (k : String) : Option α :=
  match m with
  | [] => none
  | (k', v) :: rest => if k' = k then some v else listGet rest k

/-- `delete obj[k]` on a JS object used as a string-keyed map. -/
def listDel {α : Type} (m : List (String × α)) (k : String) : List (String × α) :=
  m.filter (fun p => p.1 ≠ k)

/-- `VirtualState` from `types.ts`: the Store's content. -/
structure VirtualState where
  windowId : String
  winRect : Rect
  windows : List (String × WindowSnapshot)
  layout : Option VflLayout
  assignedScreenId : Option String
  viewportOffset : Int × Int
  virtualRect : Option Rect
  isLeader : Bool
  leaderId : Option String
  permissionGranted : Bool
  sharedData : List (String × Json)
  deriving DecidableEq, Repr

/-- `VirtualEvent` from `types.ts`: the tagged union of bus messages. -/
inductive Msg where
  | hello (payload : WindowSnapshot)
  | heartbeat (payload : WindowSnapshot)
  | goodbye (id : String)
  | layoutUpdate (payload : VflLayout)
  | leaderClaim (id : String) (timestamp : Int)
  | requestLayout (id : String)
  | sharedDataUpdate (key : String) (value : Json)
  deriving DecidableEq, Repr

/-- The `(windowId, createdAt)` pair served by `getIdentity()`. -/
structure Identity where
  windowId : String
  createdAt : Int
  deriving DecidableEq, Repr

/-- Result of one engine operation: the new store content, the broadcasts
it made (in order), and `ok = false` when an exception escaped. -/
structure StepResult where
  state : VirtualState
  msgs : List Msg
  ok : Bool
  deriving DecidableEq, Repr

/-- `getNetwork()?.broadcast(m)`: one message when the transport is up,
nothing before initialisation completes. -/
def broadcastMsg (cfg : BootConfig) (m : Msg) : List Msg :=
  if cfg.hasNetwork then [m] else []

/-! ## Layout system (`EngineLayout.ts`) -/

/-- The screen projected from a peer snapshot in `recalculateWorld`:
each coordinate from `virtualRect` when present, else from `rect`. -/
def windowToScreen (w : WindowSnapshot) : VflScreen :=
  { id := w.id,
    x := (w.virtualRect.map (·.x)).getD w.rect.x,
    y := (w.virtualRect.map (·.y)).getD w.rect.y,
    w := (w.virtualRect.map (·.w)).getD w.rect.w,
    h := (w.virtualRect.map (·.h)).getD w.rect.h,
    scale := none }

/-- The `this.staticLayout || state.layout` selection in
`recalculateLocalView`. -/
def activeLayoutOf (cfg : BootConfig) (s : VirtualState) : Option VflLayout :=
  match cfg.staticLayout with
  | some L => some L
  | none => s.layout

/-- `recalculateLocalView` from `EngineLayout.ts`: project self into the
active layout (static override first) and commit the derived fields. -/
def recalculateLocalView (cfg : BootConfig) (s : VirtualState) : VirtualState :=
  match activeLayoutOf cfg s with
  | none => s
  | some L =>
    if L.screens.isEmpty then s
    else
      match calculateAssignedScreen cfg s.windowId s.winRect L.screens with
      | none => s
      | some assignedScreen =>
        let relativePos := calculateRelativePosition cfg s.winRect assignedScreen
        let globalVirtualRect :=
          calculateGlobalPosition assignedScreen relativePos s.winRect.w s.winRect.h
        { s with
            assignedScreenId := some assignedScreen.id,
            viewportOffset :=
              (globalVirtualRect.x - L.frame.x, globalVirtualRect.y - L.frame.y),
            virtualRect := some globalVirtualRect }

/-- `recalculateWorld` from `EngineLayout.ts`.  Static override: broadcast
and store it as-is.  Dynamic: collect every window whose `rect.w > 0`
(the code checks only the width), normalize, store, broadcast, reproject
self.  A `LayoutZ.parse` throw surfaces as `ok = false`. -/
def recalculateWorld (cfg : BootConfig) (s : VirtualState) : StepResult :=
  match cfg.staticLayout with
  | some L =>
    ⟨{ s with layout := some L }, broadcastMsg cfg (Msg.layoutUpdate L), true⟩
  | none =>
    let allWindows := s.windows.map (·.2)
    let screens := (allWindows.filter (fun w => decide (0 < w.rect.w))).map windowToScreen
    if screens.isEmpty then ⟨s, [], true⟩
    else
      match normalizeLayout none screens with
      | none => ⟨s, [], false⟩
      | some L =>
        let s1 := { s with layout := some L }
        ⟨recalculateLocalView cfg s1, broadcastMsg cfg (Msg.layoutUpdate L), true⟩

/-! ## Network system (`EngineNetwork.ts`) -/

/-- `publishSelf` from `EngineNetwork.ts`: snapshot self, refresh the own
entry in `windows` (unless the stored timestamp already matches), then
broadcast a `HEARTBEAT`.  A no-op when the transport is absent. -/
def publishSelf (cfg : BootConfig) (ident : Identity) (now : Int)
    (s : VirtualState) : StepResult :=
  if !cfg.hasNetwork then ⟨s, [], true⟩
  else
    let snapshot : WindowSnapshot :=
      { id := ident.windowId, createdAt := ident.createdAt, rect := s.winRect,
        lastSeen := now, assignedScreenId := s.assignedScreenId,
        virtualRect := s.virtualRect, timestamp := now }
    let s1 :=
      if (listGet s.windows ident.windowId).map (·.timestamp) ≠ some snapshot.timestamp then
        { s with windows := listSet s.windows ident.windowId snapshot }
      else s
    ⟨s1, [Msg.heartbeat snapshot], true⟩

/-- `requestData` from `EngineNetwork.ts`: broadcast a `REQUEST_LAYOUT`. -/
def requestData (cfg : BootConfig) (ident : Identity) (s : VirtualState) : StepResult :=
  ⟨s, broadcastMsg cfg (Msg.requestLayout ident.windowId), true⟩

/-- `handleMessage` from `EngineNetwork.ts`: the protocol handler. -/
def handleMessage (cfg : BootConfig) (ident : Identity) (now : Int) (ev : Msg)
    (s : VirtualState) : StepResult :=
  match ev with
  | .hello win | .heartbeat win =>
    if win.id == ident.windowId then ⟨s, [], true⟩
    else
      let s1 := { s with windows := listSet s.windows win.id { win with lastSeen := now } }
      if s1.isLeader then recalculateWorld cfg s1 else ⟨s1, [], true⟩
  | .requestLayout id =>
    if id == ident.windowId then ⟨s, [], true⟩
    else if s.isLeader then
      let r := recalculateWorld cfg s
      if r.ok then
        ⟨r.state,
          r.msgs ++ r.state.sharedData.flatMap
            (fun kv => broadcastMsg cfg (Msg.sharedDataUpdate kv.1 kv.2)),
          true⟩
      else r
    else ⟨s, [], true⟩
  | .goodbye id =>
    let s1 := { s with windows := listDel s.windows id }
    if s1.isLeader then recalculateWorld cfg s1 else ⟨s1, [], true⟩
  | .layoutUpdate L =>
    if !s.isLeader then
      ⟨recalculateLocalView cfg { s with layout := some L }, [], true⟩
    else ⟨s, [], true⟩
  | .sharedDataUpdate key value =>
    ⟨{ s with sharedData := listSet s.sharedData key value }, [], true⟩
  | .leaderClaim _ _ =>
    ⟨{ s with isLeader := false }, [], true⟩

/-! ## Lifecycle system (`EngineLifecycle.ts`) -/

/-- Result of one heartbeat tick: the updated `ticksSinceStart` counter
plus the usual step result. -/
structure TickResult where
  ticks : Nat
  state : VirtualState
  msgs : List Msg
  ok : Bool
  deriving DecidableEq, Repr

/-- `EngineLifecycle.tick`: publish self; during the first
`STARTUP_GRACE_PERIOD_TICKS = 3` ticks just count up; afterwards run the
election against `WINDOW_TIMEOUT = 5000`, sync `leaderId`, poll for a
missing layout, and apply the leader/follower transition. -/
def tick (cfg : BootConfig) (ident : Identity) (now : Int) (ticks : Nat)
    (s : VirtualState) : TickResult :=
  let pub := publishSelf cfg ident now s
  let state := pub.state
  let allWindows := state.windows.map (·.2)
  if ticks < 3 then ⟨ticks + 1, state, pub.msgs, true⟩
  else
    let me : WindowSnapshot :=
      { id := ident.windowId, createdAt := ident.createdAt, lastSeen := now,
        rect := state.winRect, timestamp := now }
    let res := selectLeader allWindows me 5000 now
    let s1 := if state.leaderId ≠ res.leaderId then { state with leaderId := res.leaderId }
      else state
    let reqMsgs := if !state.isLeader && state.layout.isNone then
        broadcastMsg cfg (Msg.requestLayout ident.windowId)
      else []
    if res.isMe then
      if !state.isLeader then
        let s2 := { s1 with isLeader := true }
        let r := recalculateWorld cfg s2
        ⟨ticks, r.state, pub.msgs ++ reqMsgs ++ r.msgs, r.ok⟩
      else ⟨ticks, s1, pub.msgs ++ reqMsgs, true⟩
    else
      if state.isLeader then ⟨ticks, { s1 with isLeader := false }, pub.msgs ++ reqMsgs, true⟩
      else ⟨ticks, s1, pub.msgs ++ reqMsgs, true⟩

/-- `EngineLifecycle.cleanupFn`: evict every non-self window whose
`lastSeen` is older than `WINDOW_TIMEOUT`; when the leader evicted
someone and no static layout is pinned, recompute the world. -/
def cleanupFn (cfg : BootConfig) (ident : Identity) (now : Int)
    (s : VirtualState) : StepResult :=
  let nextWindows := s.windows.filter
    (fun p => p.1 == ident.windowId || !(decide (5000 < now - p.2.lastSeen)))
  if nextWindows.length ≠ s.windows.length then
    let s1 := { s with windows := nextWindows }
    if s.isLeader && cfg.staticLayout.isNone then recalculateWorld cfg s1
    else ⟨s1, [], true⟩
  else ⟨s, [], true⟩

/-! ## Engine façade (`VirtualEngine.ts`) -/

/-- The store content the `VirtualEngine` constructor installs. -/
def initialState (windowId : String) (initialRect : Rect)
    (staticLayout : Option VflLayout) : VirtualState :=
  { windowId := windowId, winRect := initialRect, windows := [],
    layout := staticLayout, assignedScreenId := none,
    viewportOffset := (0, 0), virtualRect := none, isLeader := false,
    leaderId := none, permissionGranted := false, sharedData := [] }

/-- `initializeNetwork`: once the session id resolves, announce with a
`REQUEST_LAYOUT`, publish self, recompute the local view when a static
layout is pinned, and publish self again. -/
def initializeNetworkStep (cfg : BootConfig) (ident : Identity) (now : Int)
    (s : VirtualState) : StepResult :=
  let m0 := broadcastMsg cfg (Msg.requestLayout ident.windowId)
  let p1 := publishSelf cfg ident now s
  let s1 := if cfg.staticLayout.isSome then recalculateLocalView cfg p1.state else p1.state
  let p2 := publishSelf cfg ident now s1
  ⟨p2.state, m0 ++ p1.msgs ++ p2.msgs, true⟩

/-- `updateRect`: install the new rect, reproject self, publish, and
recompute the world when leading dynamically. -/
def updateRect (cfg : BootConfig) (ident : Identity) (now : Int) (rect : Rect)
    (s : VirtualState) : StepResult :=
  let s1 := recalculateLocalView cfg { s with winRect := rect }
  let pub := publishSelf cfg ident now s1
  if pub.state.isLeader && cfg.staticLayout.isNone then
    let r := recalculateWorld cfg pub.state
    ⟨r.state, pub.msgs ++ r.msgs, r.ok⟩
  else ⟨pub.state, pub.msgs, true⟩

/-- `setSharedData`: write locally, then broadcast the entry. -/
def setSharedData (cfg : BootConfig) (key : String) (value : Json)
    (s : VirtualState) : StepResult :=
  ⟨{ s with sharedData := listSet s.sharedData key value },
    broadcastMsg cfg (Msg.sharedDataUpdate key value), true⟩

/-- `dispose`: stop the timers (not modelled) and broadcast a `GOODBYE`. -/
def dispose (cfg : BootConfig) (s : VirtualState) : StepResult :=
  ⟨s, broadcastMsg cfg (Msg.goodbye s.windowId), true⟩

end WindowMesh

namespace WindowMesh

/-- C1: `selectLeader` filters the combined snapshot list down to those with
`lastSeen` within `timeout` of `now`, and returns the id of a candidate that
is minimal under `(createdAt ascending, id ascending)`; being a pure
function, it is deterministic on any fixed input. -/
theorem selectLeader_minimal (allWindows : List WindowSnapshot)
    (myWindow : WindowSnapshot) (timeout now : Int)
    (h : activeCandidates allWindows myWindow timeout now ≠ []) :
    ∃ c, c ∈ activeCandidates allWindows myWindow timeout now ∧
      (selectLeader allWindows myWindow timeout now).leaderId = some c.id ∧
      (selectLeader allWindows myWindow timeout now).isMe = (c.id == myWindow.id) ∧
      ∀ d ∈ activeCandidates allWindows myWindow timeout now, leaderLe c d := by
  set A := activeCandidates allWindows myWindow timeout now with hA
  have hperm := sortCandidates_perm A
  have hsorted := sortCandidates_sorted A
  cases hs : sortCandidatesForLeadership A with
  | nil =>
    rw [hs] at hperm
    exact absurd (hperm.symm.eq_nil) h
  | cons c tl =>
    refine ⟨c, ?_, ?_, ?_, ?_⟩
    · exact hperm.mem_iff.mp (hs ▸ List.mem_cons_self c tl)
    · simp [selectLeader, ← hA, hs]
    · simp [selectLeader, ← hA, hs]
    · intro d hd
      have hd' : d ∈ c :: tl := hs ▸ hperm.mem_iff.mpr hd
      rcases List.mem_cons.mp hd' with rfl | hd''
      · exact leaderLe_refl d
      · rw [hs] at hsorted
        exact (List.sorted_cons.mp hsorted).1 d hd''

/-- Witness for C1 at a concrete input: two live peers, the older wins. -/
theorem selectLeader_minimal_witness :
    activeCandidates
        [{ id := "B", createdAt := 7, lastSeen := 100, rect := ⟨0, 0, 10, 10⟩, timestamp := 100 }]
        { id := "A", createdAt := 3, lastSeen := 100, rect := ⟨0, 0, 10, 10⟩, timestamp := 100 }
        5000 100 ≠ [] ∧
      ∃ c, c ∈ activeCandidates
          [{ id := "B", createdAt := 7, lastSeen := 100, rect := ⟨0, 0, 10, 10⟩, timestamp := 100 }]
          { id := "A", createdAt := 3, lastSeen := 100, rect := ⟨0, 0, 10, 10⟩, timestamp := 100 }
          5000 100 ∧
        (selectLeader
            [{ id := "B", createdAt := 7, lastSeen := 100, rect := ⟨0, 0, 10, 10⟩, timestamp := 100 }]
            { id := "A", createdAt := 3, lastSeen := 100, rect := ⟨0, 0, 10, 10⟩, timestamp := 100 }
            5000 100).leaderId = some c.id ∧
        (selectLeader
            [{ id := "B", createdAt := 7, lastSeen := 100, rect := ⟨0, 0, 10, 10⟩, timestamp := 100 }]
            { id := "A", createdAt := 3, lastSeen := 100, rect := ⟨0, 0, 10, 10⟩, timestamp := 100 }
            5000 100).isMe = (c.id == "A") ∧
        ∀ d ∈ activeCandidates
            [{ id := "B", createdAt := 7, lastSeen := 100, rect := ⟨0, 0, 10, 10⟩, timestamp := 100 }]
            { id := "A", createdAt := 3, lastSeen := 100, rect := ⟨0, 0, 10, 10⟩, timestamp := 100 }
            5000 100, leaderLe c d :=
  ⟨by decide, selectLeader_minimal _ _ _ _ (by decide)⟩

theorem calculateAssignedScreen_isSome (cfg : BootConfig) (windowId : String)
    (winRect : Rect) (screens : List VflScreen) (h : screens ≠ []) :
    ∃ scr, calculateAssignedScreen cfg windowId winRect screens = some scr := by
  obtain ⟨a, rest, rfl⟩ := List.exists_cons_of_ne_nil h
  simp only [calculateAssignedScreen]
  repeat' split
  all_goals simp

/-- C4: after `recalculateLocalView` runs with an active non-empty layout,
the committed state satisfies `viewportOffset = virtualRect.origin -
frame.origin` and `virtualRect = assignedScreen.origin + relativePos` with
size `winRect.size`, where `relativePos` is the external boot override when
supplied and otherwise `winRect.origin - assignedScreen.origin`. -/
theorem recalculateLocalView_commits (cfg : BootConfig) (s : VirtualState)
    (L : VflLayout) (hL : activeLayoutOf cfg s = some L) (hne : L.screens ≠ []) :
    ∃ scr vr, calculateAssignedScreen cfg s.windowId s.winRect L.screens = some scr ∧
      (recalculateLocalView cfg s).assignedScreenId = some scr.id ∧
      (recalculateLocalView cfg s).virtualRect = some vr ∧
      (recalculateLocalView cfg s).viewportOffset = (vr.x - L.frame.x, vr.y - L.frame.y) ∧
      vr = { x := scr.x + (calculateRelativePosition cfg s.winRect scr).1,
             y := scr.y + (calculateRelativePosition cfg s.winRect scr).2,
             w := s.winRect.w, h := s.winRect.h } ∧
      calculateRelativePosition cfg s.winRect scr =
        cfg.urlScreenPosition.getD (s.winRect.x - scr.x, s.winRect.y - scr.y) := by
  obtain ⟨scr, hscr⟩ := calculateAssignedScreen_isSome cfg s.windowId s.winRect L.screens hne
  have hempty : L.screens.isEmpty = false := by
    simp [List.isEmpty_iff, hne]
  refine ⟨scr, _, hscr, ?_, ?_, ?_, rfl, ?_⟩
  · simp [recalculateLocalView, hL, hempty, hscr]
  · simp [recalculateLocalView, hL, hempty, hscr, calculateGlobalPosition]
  · simp [recalculateLocalView, hL, hempty, hscr, calculateGlobalPosition]
  · cases h : cfg.urlScreenPosition <;> simp [calculateRelativePosition, h]

/-- Concrete layout for the C4 witness. -/
def c4Layout : VflLayout := ⟨⟨0, 0, 1000, 1000⟩, [⟨"S1", 0, 0, 1000, 1000, none⟩]⟩

/-- Concrete store content for the C4 witness. -/
def c4State : VirtualState := initialState "A" ⟨30, 40, 800, 600⟩ (some c4Layout)

/-- Witness for C4: a peer with a one-screen static layout. -/
theorem recalculateLocalView_commits_witness :
    activeLayoutOf { staticLayout := some c4Layout } c4State = some c4Layout ∧
    c4Layout.screens ≠ [] ∧
    ∃ scr vr,
      calculateAssignedScreen { staticLayout := some c4Layout } c4State.windowId
          c4State.winRect c4Layout.screens = some scr ∧
      (recalculateLocalView { staticLayout := some c4Layout } c4State).assignedScreenId =
        some scr.id ∧
      (recalculateLocalView { staticLayout := some c4Layout } c4State).virtualRect =
        some vr ∧
      (recalculateLocalView { staticLayout := some c4Layout } c4State).viewportOffset =
        (vr.x - c4Layout.frame.x, vr.y - c4Layout.frame.y) ∧
      vr = { x := scr.x +
                (calculateRelativePosition { staticLayout := some c4Layout }
                  c4State.winRect scr).1,
             y := scr.y +
                (calculateRelativePosition { staticLayout := some c4Layout }
                  c4State.winRect scr).2,
             w := c4State.winRect.w, h := c4State.winRect.h } ∧
      calculateRelativePosition { staticLayout := some c4Layout } c4State.winRect scr =
        ({ staticLayout := some c4Layout } : BootConfig).urlScreenPosition.getD
          (c4State.winRect.x - scr.x, c4State.winRect.y - scr.y) :=
  ⟨by decide, by decide,
    recalculateLocalView_commits { staticLayout := some c4Layout } c4State c4Layout
      (by decide) (by decide)⟩

/-- C3 (code bug): with a known peer whose rect has positive width but zero
height, `recalculateWorld` is not a no-op: the filter (which checks only
`rect.w > 0`, contrary to its own comment "Valid Screen = Has width/height
> 0") admits the degenerate screen and the `LayoutZ.parse` throw escapes
(`ok = false`), where the claim requires the peer to be excluded and the
call to be a silent no-op. -/
theorem recalculateWorld_zeroHeight_raises :
    (recalculateWorld { }
        { initialState "A" ⟨0, 0, 800, 600⟩ none with
            windows := [("p",
              { id := "p", createdAt := 0, lastSeen := 0,
                rect := ⟨0, 0, 100, 0⟩, timestamp := 0 })] }).ok = false ∧
    (recalculateWorld { }
        { initialState "A" ⟨0, 0, 800, 600⟩ none with
            windows := [("p",
              { id := "p", createdAt := 0, lastSeen := 0,
                rect := ⟨0, 0, 100, 0⟩, timestamp := 0 })] }).msgs = [] := by
  decide

/-- The similarity score the assignment loop computes for one screen. -/
def screenScore (target : Size) (s : VflScreen) : ℚ :=
  calculateDimensionSimilarity target ⟨s.w, s.h⟩

/-- `s` is at least as preferred as `t` by the assignment loop: a strictly
higher similarity, or an equal similarity with a stable hash that is no
larger. -/
def screenBeats (windowId : String) (target : Size) (s t : VflScreen) : Prop :=
  screenScore target t < screenScore target s ∨
    (screenScore target t = screenScore target s ∧
      screenTie windowId s ≤ screenTie windowId t)

theorem screenBeats_refl (windowId : String) (target : Size) (s : VflScreen) :
    screenBeats windowId target s s :=
  Or.inr ⟨rfl, le_refl _⟩

theorem screenBeats_trans (windowId : String) (target : Size) (s t u : VflScreen)
    (hst : screenBeats windowId target s t) (htu : screenBeats windowId target t u) :
    screenBeats windowId target s u := by
  rcases hst with h | ⟨he, hi⟩
  · rcases htu with h2 | ⟨he2, _⟩
    · exact Or.inl (h2.trans h)
    · exact Or.inl (he2 ▸ h)
  · rcases htu with h2 | ⟨he2, hi2⟩
    · exact Or.inl (he ▸ h2)
    · exact Or.inr ⟨he2.trans he, hi.trans hi2⟩

theorem sim_nonneg (a b : Size) : 0 ≤ calculateDimensionSimilarity a b := by
  unfold calculateDimensionSimilarity
  split
  · exact le_refl 0
  · exact le_max_left _ _

theorem foldBest_spec (windowId : String) (target : Size) (l : List VflScreen) :
    ∀ s0 : VflScreen,
      ∃ s1, l.foldl (findBestStep windowId target)
          ⟨some s0.id, screenScore target s0, screenTie windowId s0⟩ =
          ⟨some s1.id, screenScore target s1, screenTie windowId s1⟩ ∧
        (s1 = s0 ∨ s1 ∈ l) ∧ screenBeats windowId target s1 s0 ∧
        ∀ t ∈ l, screenBeats windowId target s1 t := by
  induction l with
  | nil =>
    intro s0
    exact ⟨s0, rfl, Or.inl rfl, screenBeats_refl _ _ _, by simp⟩
  | cons x xs ih =>
    intro s0
    rw [List.foldl_cons]
    by_cases h1 : screenScore target s0 < screenScore target x
    · have hstep : findBestStep windowId target
          ⟨some s0.id, screenScore target s0, screenTie windowId s0⟩ x =
          ⟨some x.id, screenScore target x, screenTie windowId x⟩ := by
        unfold findBestStep
        simp only [screenScore] at h1
        simp [h1, screenScore, screenTie]
      rw [hstep]
      obtain ⟨s1, hfold, hmem, hbeats, hall⟩ := ih x
      have hxs0 : screenBeats windowId target x s0 := Or.inl h1
      refine ⟨s1, hfold, ?_, ?_, ?_⟩
      · rcases hmem with rfl | hm
        · exact Or.inr (List.mem_cons_self _ _)
        · exact Or.inr (List.mem_cons_of_mem _ hm)
      · exact screenBeats_trans _ _ _ _ _ hbeats hxs0
      · intro t ht
        rcases List.mem_cons.mp ht with rfl | ht'
        · exact hbeats
        · exact hall t ht'
    · by_cases h2 : screenScore target x = screenScore target s0 ∧
          screenTie windowId x < screenTie windowId s0
      · have hstep : findBestStep windowId target
            ⟨some s0.id, screenScore target s0, screenTie windowId s0⟩ x =
            ⟨some x.id, screenScore target x, screenTie windowId x⟩ := by
          unfold findBestStep
          simp only [screenScore, screenTie] at h1 h2
          simp [h1, h2, screenScore, screenTie]
        rw [hstep]
        obtain ⟨s1, hfold, hmem, hbeats, hall⟩ := ih x
        have hxs0 : screenBeats windowId target x s0 :=
          Or.inr ⟨h2.1.symm, le_of_lt h2.2⟩
        refine ⟨s1, hfold, ?_, ?_, ?_⟩
        · rcases hmem with rfl | hm
          · exact Or.inr (List.mem_cons_self _ _)
          · exact Or.inr (List.mem_cons_of_mem _ hm)
        · exact screenBeats_trans _ _ _ _ _ hbeats hxs0
        · intro t ht
          rcases List.mem_cons.mp ht with rfl | ht'
          · exact hbeats
          · exact hall t ht'
      · have hstep : findBestStep windowId target
            ⟨some s0.id, screenScore target s0, screenTie windowId s0⟩ x =
            ⟨some s0.id, screenScore target s0, screenTie windowId s0⟩ := by
          unfold findBestStep
          simp only [screenScore, screenTie] at h1 h2
          simp [h1, h2, screenScore, screenTie]
        rw [hstep]
        obtain ⟨s1, hfold, hmem, hbeats, hall⟩ := ih s0
        have hs0x : screenBeats windowId target s0 x := by
          rcases lt_or_eq_of_le (le_of_not_lt h1) with hlt | heq
          · exact Or.inl hlt
          · refine Or.inr ⟨heq, ?_⟩
            by_contra hc
            exact h2 ⟨heq, lt_of_not_le hc⟩
        refine ⟨s1, hfold, ?_, hbeats, ?_⟩
        · rcases hmem with rfl | hm
          · exact Or.inl rfl
          · exact Or.inr (List.mem_cons_of_mem _ hm)
        · intro t ht
          rcases List.mem_cons.mp ht with rfl | ht'
          · exact screenBeats_trans _ _ _ _ _ hbeats hs0x
          · exact hall t ht'

theorem findBestScreen_spec (windowId : String) (target : Size) (a : VflScreen)
    (rest : List VflScreen) :
    ∃ s, s ∈ a :: rest ∧
      findBestScreen windowId target (a :: rest) =
        ⟨some s.id, screenScore target s, screenTie windowId s⟩ ∧
      ∀ t ∈ a :: rest, screenBeats windowId target s t := by
  unfold findBestScreen
  have hstep : findBestStep windowId target
      ⟨((a :: rest).head?.map (·.id)), -1, 0⟩ a =
      ⟨some a.id, screenScore target a, screenTie windowId a⟩ := by
    unfold findBestStep
    have hlt : (-1 : ℚ) < calculateDimensionSimilarity target ⟨a.w, a.h⟩ :=
      lt_of_lt_of_le (by norm_num) (sim_nonneg _ _)
    simp [hlt, screenScore, screenTie]
  rw [List.foldl_cons, hstep]
  obtain ⟨s1, hfold, hmem, hbeats, hall⟩ := foldBest_spec windowId target rest a
  refine ⟨s1, ?_, hfold, ?_⟩
  · rcases hmem with rfl | hm
    · exact List.mem_cons_self _ _
    · exact List.mem_cons_of_mem _ hm
  · intro t ht
    rcases List.mem_cons.mp ht with rfl | ht'
    · exact hbeats
    · exact hall t ht'

/-- The size the assignment ends up matching against: the physical display
size when it is known, positive, and its best similarity reaches the
`similarityThreshold = 0.8` default; otherwise the window size. -/
def effectiveTarget (windowId : String) (winRect : Rect) (screens : List VflScreen)
    (physical : Option Size) : Size :=
  match physical with
  | some p =>
    if 0 < p.w ∧ 0 < p.h ∧ 4 / 5 ≤ (findBestScreen windowId p screens).score then p
    else ⟨winRect.w, winRect.h⟩
  | none => ⟨winRect.w, winRect.h⟩

/-- C5 (amended): with no external screen-id override and a non-empty
screen list, the assigned screen maximizes the dimension similarity to the
*effective* target size — the physical display size only when it is known
and its best similarity reaches the 0.8 threshold, else the window size —
with ties broken by the stable `(windowId, screenId)` hash. -/
theorem assignScreen_maximizes (cfg : BootConfig) (windowId : String) (winRect : Rect)
    (a : VflScreen) (rest : List VflScreen) (hurl : cfg.urlScreenId = none) :
    ∃ s scr, s ∈ a :: rest ∧
      calculateAssignedScreen cfg windowId winRect (a :: rest) = some scr ∧
      scr.id = s.id ∧
      ∀ t ∈ a :: rest, screenBeats windowId
        (effectiveTarget windowId winRect (a :: rest) cfg.physicalScreenSize) s t := by
  have hmain : ∃ s, s ∈ a :: rest ∧
      (assignScreenForWindow windowId winRect (a :: rest) cfg.physicalScreenSize).screenId =
        some s.id ∧
      ∀ t ∈ a :: rest, screenBeats windowId
        (effectiveTarget windowId winRect (a :: rest) cfg.physicalScreenSize) s t := by
    unfold assignScreenForWindow effectiveTarget
    cases hp : cfg.physicalScreenSize with
    | none =>
      obtain ⟨s, hsmem, hfb, hall⟩ :=
        findBestScreen_spec windowId ⟨winRect.w, winRect.h⟩ a rest
      exact ⟨s, hsmem, by simp [hfb], hall⟩
    | some p =>
      by_cases hpos : 0 < p.w ∧ 0 < p.h
      · by_cases hth : 4 / 5 ≤ (findBestScreen windowId p (a :: rest)).score
        · obtain ⟨s, hsmem, hfb, hall⟩ := findBestScreen_spec windowId p a rest
          rw [hfb] at hth
          refine ⟨s, hsmem, ?_, ?_⟩
          · simp [hpos, hth, hfb]
          · simpa [hpos, hth, hfb] using hall
        · obtain ⟨s, hsmem, hfb, hall⟩ :=
            findBestScreen_spec windowId ⟨winRect.w, winRect.h⟩ a rest
          refine ⟨s, hsmem, ?_, ?_⟩
          · simp [hpos, hth, hfb]
          · have : ¬(0 < p.w ∧ 0 < p.h ∧
                4 / 5 ≤ (findBestScreen windowId p (a :: rest)).score) := by
              intro hc
              exact hth hc.2.2
            simpa [this] using hall
      · obtain ⟨s, hsmem, hfb, hall⟩ :=
          findBestScreen_spec windowId ⟨winRect.w, winRect.h⟩ a rest
        refine ⟨s, hsmem, ?_, ?_⟩
        · simp [hpos, hfb]
        · have : ¬(0 < p.w ∧ 0 < p.h ∧
              4 / 5 ≤ (findBestScreen windowId p (a :: rest)).score) := by
            intro hc
            exact hpos ⟨hc.1, hc.2.1⟩
          simpa [this] using hall
  obtain ⟨s, hsmem, hsid, hall⟩ := hmain
  have hfind : ∃ scr, (a :: rest).find? (fun t => t.id == s.id) = some scr := by
    have : ((a :: rest).find? (fun t => t.id == s.id)).isSome := by
      rw [List.find?_isSome]
      exact ⟨s, hsmem, by simp⟩
    exact Option.isSome_iff_exists.mp this
  obtain ⟨scr, hscr⟩ := hfind
  have hscrid : scr.id = s.id := by
    have := List.find?_some hscr
    simpa using this
  refine ⟨s, scr, hsmem, ?_, hscrid, hall⟩
  unfold calculateAssignedScreen
  rw [hurl]
  simp [hsid, hscr]

set_option maxRecDepth 100000 in
/-- C5 counterexample: the physical display size is known (`10×10`) but no
screen is within the 0.8 similarity threshold of it, so the code falls
back to matching the *window* size and assigns the screen `B` that is
similarity-furthest from the physical size; the claim, which has the
target be the physical size whenever it is known, requires `A`. -/
theorem assignScreen_threshold_cex :
    calculateAssignedScreen { physicalScreenSize := some ⟨10, 10⟩ } "w"
        ⟨0, 0, 1000, 1000⟩
        [⟨"A", 0, 0, 100, 100, none⟩, ⟨"B", 0, 0, 1000, 1000, none⟩] =
      some ⟨"B", 0, 0, 1000, 1000, none⟩ ∧
    calculateDimensionSimilarity ⟨10, 10⟩ ⟨1000, 1000⟩ <
      calculateDimensionSimilarity ⟨10, 10⟩ ⟨100, 100⟩ ∧
    ({ physicalScreenSize := some ⟨10, 10⟩ } : BootConfig).urlScreenId = none := by
  with_unfolding_all decide

/-- Witness for C5: the amended theorem applied to a two-screen layout with
no physical size known. -/
theorem assignScreen_maximizes_witness :
    ({ } : BootConfig).urlScreenId = none ∧
    ∃ s scr, s ∈ [⟨"A", 0, 0, 100, 100, none⟩, ⟨"B", 0, 0, 1000, 1000, none⟩] ∧
      calculateAssignedScreen { } "w" ⟨0, 0, 1000, 1000⟩
          [(⟨"A", 0, 0, 100, 100, none⟩ : VflScreen), ⟨"B", 0, 0, 1000, 1000, none⟩] =
        some scr ∧
      scr.id = s.id ∧
      ∀ t ∈ [(⟨"A", 0, 0, 100, 100, none⟩ : VflScreen), ⟨"B", 0, 0, 1000, 1000, none⟩],
        screenBeats "w"
          (effectiveTarget "w" ⟨0, 0, 1000, 1000⟩
            [⟨"A", 0, 0, 100, 100, none⟩, ⟨"B", 0, 0, 1000, 1000, none⟩]
            ({ } : BootConfig).physicalScreenSize) s t :=
  ⟨rfl, assignScreen_maximizes { } "w" ⟨0, 0, 1000, 1000⟩
    ⟨"A", 0, 0, 100, 100, none⟩ [⟨"B", 0, 0, 1000, 1000, none⟩] rfl⟩

theorem recalculateLocalView_layout (cfg : BootConfig) (s : VirtualState) :
    (recalculateLocalView cfg s).layout = s.layout := by
  unfold recalculateLocalView
  repeat' split
  all_goals rfl

theorem normalizeLayout_noFrame (screens : List VflScreen) (L : VflLayout)
    (h : normalizeLayout none screens = some L) :
    L.frame = unionRects (screens.map VflScreen.toRect) ∧ L.screens = screens ∧
      layoutZValid L = true := by
  simp only [normalizeLayout, Option.getD] at h
  split at h
  · cases h
    exact ⟨rfl, rfl, by assumption⟩
  · cases h

theorem layoutZValid_screens (L : VflLayout) (h : layoutZValid L = true) :
    ∀ scr ∈ L.screens, 0 < scr.w ∧ 0 < scr.h := by
  intro scr hmem
  unfold layoutZValid at h
  simp only [Bool.and_eq_true, List.all_eq_true] at h
  have := h.2 scr hmem
  unfold screenZValid at this
  simp only [Bool.and_eq_true, decide_eq_true_eq] at this
  exact ⟨this.1.2, this.2⟩

/-- C2 (amended): every layout the dynamic recompute path installs
satisfies the invariant: its frame is the union bounding box of its
screens and every screen has positive extent.  (The static-layout path
only schema-validates and is exempt; see the counterexample.) -/
theorem recalculateWorld_dynamic_invariant (cfg : BootConfig) (s : VirtualState)
    (hstatic : cfg.staticLayout = none) :
    (recalculateWorld cfg s).state.layout = s.layout ∨
      ∃ L, (recalculateWorld cfg s).state.layout = some L ∧
        L.frame = unionRects (L.screens.map VflScreen.toRect) ∧
        ∀ scr ∈ L.screens, 0 < scr.w ∧ 0 < scr.h := by
  unfold recalculateWorld
  rw [hstatic]
  dsimp only
  split
  · exact Or.inl rfl
  · rename_i hne
    split
    · exact Or.inl rfl
    · rename_i L hL
      obtain ⟨hframe, hscreens, hvalid⟩ := normalizeLayout_noFrame _ _ hL
      refine Or.inr ⟨L, ?_, ?_, layoutZValid_screens L hvalid⟩
      · rw [recalculateLocalView_layout]
      · rw [hframe, hscreens]

/-! ## Session derivation (`EngineSessionUtils.ts`) -/

/-- The JS `| 0` / `& h` coercion to a signed 32-bit integer. -/
def toInt32 (n : Int) : Int :=
  let m := n % 2 ^ 32
  if m < 2 ^ 31 then m else m - 2 ^ 32

/-- One iteration of the rolling hash in `generateSessionId`:
`hash = (hash << 5) - hash + charCode; hash = hash & hash`. -/
def sessionHashStep (h : Int) (c : Nat) : Int :=
  toInt32 (toInt32 (h * 2 ^ 5) - h + c)

/-- The 32-bit rolling hash over the layout string's UTF-16 units. -/
def sessionHash (s : String) : Int :=
  (strUtf16 s).foldl sessionHashStep 0

/-- `n.toString(16)`: lowercase hexadecimal rendering. -/
def natToHex (n : Nat) : String :=
  String.mk (Nat.toDigits 16 n)

/-- `generateSessionId` from `EngineSessionUtils.ts`: `"default"` for the
empty string, else a fixed prefix plus the hex rendering of the unsigned
reinterpretation (`>>> 0`) of the rolling hash. -/
def generateSessionId (layoutString : String) : String :=
  if layoutString = "" then "default"
  else "vwin:" ++ natToHex ((sessionHash layoutString) % 2 ^ 32).toNat

/-- C9: `generateSessionId` is a pure function of the layout descriptor
string (determinism is definitional); the empty string maps to the literal
`"default"`, and every non-empty string maps to the fixed prefix `"vwin:"`
followed by the hexadecimal rendering of a value below `2^32` — the
unsigned reinterpretation of the 32-bit rolling hash. -/
theorem generateSessionId_spec (s : String) :
    (s = "" → generateSessionId s = "default") ∧
    (s ≠ "" → ∃ n : Nat, n < 2 ^ 32 ∧ n = ((sessionHash s) % 2 ^ 32).toNat ∧
      generateSessionId s = "vwin:" ++ natToHex n) := by
  constructor
  · intro h
    simp [generateSessionId, h]
  · intro h
    refine ⟨((sessionHash s) % 2 ^ 32).toNat, ?_, rfl, by simp [generateSessionId, h]⟩
    have h1 : (0 : Int) ≤ sessionHash s % 2 ^ 32 := Int.emod_nonneg _ (by norm_num)
    have h2 : sessionHash s % 2 ^ 32 < 2 ^ 32 := Int.emod_lt_of_pos _ (by norm_num)
    omega

/-- Witness for C9 at the empty string and at a concrete descriptor. -/
theorem generateSessionId_spec_witness :
    (("" : String) = "" ∧ generateSessionId "" = "default") ∧
    (("vfl1.x" : String) ≠ "" ∧ ∃ n : Nat, n < 2 ^ 32 ∧
      n = ((sessionHash "vfl1.x") % 2 ^ 32).toNat ∧
      generateSessionId "vfl1.x" = "vwin:" ++ natToHex n) :=
  ⟨⟨rfl, (generateSessionId_spec "").1 rfl⟩,
   ⟨by decide, (generateSessionId_spec "vfl1.x").2 (by decide)⟩⟩

/-! ## C7: the REQUEST_LAYOUT reaction -/

/-- C7: on a `REQUEST_LAYOUT` whose id differs from our own, a leader runs
the layout recompute (whose broadcasts are `r.msgs`) and then broadcasts
one `SHARED_DATA_UPDATE` per entry of the shared-data map, in map order; a
non-leader broadcasts nothing. -/
theorem handleMessage_requestLayout (cfg : BootConfig) (ident : Identity)
    (now : Int) (rid : String) (s : VirtualState)
    (hdiff : rid ≠ ident.windowId) (hnet : cfg.hasNetwork = true) :
    (∀ r, s.isLeader = true → recalculateWorld cfg s = r → r.ok = true →
      handleMessage cfg ident now (.requestLayout rid) s =
        ⟨r.state,
          r.msgs ++ r.state.sharedData.map (fun kv => Msg.sharedDataUpdate kv.1 kv.2),
          true⟩) ∧
    (s.isLeader = false →
      handleMessage cfg ident now (.requestLayout rid) s = ⟨s, [], true⟩) := by
  have hflat : ∀ l : List (String × Json),
      l.flatMap (fun kv => broadcastMsg cfg (Msg.sharedDataUpdate kv.1 kv.2)) =
        l.map (fun kv => Msg.sharedDataUpdate kv.1 kv.2) := by
    intro l
    induction l with
    | nil => rfl
    | cons a tl ih =>
      rw [List.flatMap_cons, ih]
      simp [broadcastMsg, hnet]
  constructor
  · intro r hlead hr hok
    simp [handleMessage, beq_iff_eq, hdiff, hlead, hr, hok, hflat]
  · intro hlead
    simp [handleMessage, beq_iff_eq, hdiff, hlead]

/-- Concrete leader state for the C7 witness. -/
def c7State : VirtualState :=
  { initialState "A" ⟨0, 0, 800, 600⟩ none with
      isLeader := true,
      sharedData := [("k", Json.num 1), ("k2", Json.str "v")],
      windows := [("A",
        { id := "A", createdAt := 0, lastSeen := 0,
          rect := ⟨0, 0, 800, 600⟩, timestamp := 0 })] }

/-- Witness for C7: a leader receiving `REQUEST_LAYOUT` from "B". -/
theorem handleMessage_requestLayout_witness :
    ("B" : String) ≠ (Identity.mk "A" 0).windowId ∧
    ({ } : BootConfig).hasNetwork = true ∧
    ((∀ r, c7State.isLeader = true → recalculateWorld { } c7State = r → r.ok = true →
      handleMessage { } ⟨"A", 0⟩ 50 (.requestLayout "B") c7State =
        ⟨r.state,
          r.msgs ++ r.state.sharedData.map (fun kv => Msg.sharedDataUpdate kv.1 kv.2),
          true⟩) ∧
    (c7State.isLeader = false →
      handleMessage { } ⟨"A", 0⟩ 50 (.requestLayout "B") c7State = ⟨c7State, [], true⟩)) :=
  ⟨by decide, rfl, handleMessage_requestLayout { } ⟨"A", 0⟩ 50 "B" c7State (by decide) rfl⟩

/-! ## C10: the engine never emits a LEADER_CLAIM -/

/-- The message types this implementation can put on the wire. -/
def allowedOutboundMsg : Msg → Prop
  | .heartbeat _ => True
  | .goodbye _ => True
  | .layoutUpdate _ => True
  | .sharedDataUpdate _ _ => True
  | .requestLayout _ => True
  | .hello _ => False
  | .leaderClaim _ _ => False

theorem mem_broadcastMsg {cfg : BootConfig} {m m' : Msg}
    (h : m ∈ broadcastMsg cfg m') : m = m' := by
  unfold broadcastMsg at h
  split at h
  · simpa using h
  · simp at h

theorem recalculateWorld_msgs (cfg : BootConfig) (s : VirtualState) :
    ∀ m ∈ (recalculateWorld cfg s).msgs, ∃ L, m = Msg.layoutUpdate L := by
  intro m hm
  unfold recalculateWorld at hm
  split at hm
  · exact ⟨_, mem_broadcastMsg hm⟩
  · dsimp only at hm
    split at hm
    · simp at hm
    · split at hm
      · simp at hm
      · exact ⟨_, mem_broadcastMsg hm⟩

theorem publishSelf_msgs (cfg : BootConfig) (ident : Identity) (now : Int)
    (s : VirtualState) :
    ∀ m ∈ (publishSelf cfg ident now s).msgs, ∃ w, m = Msg.heartbeat w := by
  intro m hm
  unfold publishSelf at hm
  dsimp only at hm
  split at hm
  · simp at hm
  · simp only [List.mem_singleton] at hm
    exact ⟨_, hm⟩

theorem recalculateWorld_msgs_allowed (cfg : BootConfig) (s : VirtualState) :
    ∀ m ∈ (recalculateWorld cfg s).msgs, allowedOutboundMsg m := by
  intro m hm
  obtain ⟨L, rfl⟩ := recalculateWorld_msgs cfg s m hm
  trivial

theorem publishSelf_msgs_allowed (cfg : BootConfig) (ident : Identity) (now : Int)
    (s : VirtualState) :
    ∀ m ∈ (publishSelf cfg ident now s).msgs, allowedOutboundMsg m := by
  intro m hm
  obtain ⟨w, rfl⟩ := publishSelf_msgs cfg ident now s m hm
  trivial

theorem handleMessage_msgs_allowed (cfg : BootConfig) (ident : Identity) (now : Int)
    (ev : Msg) (s : VirtualState) :
    ∀ m ∈ (handleMessage cfg ident now ev s).msgs, allowedOutboundMsg m := by
  intro m hm
  cases ev with
  | hello win =>
    unfold handleMessage at hm
    dsimp only at hm
    split at hm
    · simp at hm
    · split at hm
      · exact recalculateWorld_msgs_allowed _ _ m hm
      · simp at hm
  | heartbeat win =>
    unfold handleMessage at hm
    dsimp only at hm
    split at hm
    · simp at hm
    · split at hm
      · exact recalculateWorld_msgs_allowed _ _ m hm
      · simp at hm
  | requestLayout rid =>
    unfold handleMessage at hm
    dsimp only at hm
    split at hm
    · simp at hm
    · split at hm
      · split at hm
        · simp only [List.mem_append] at hm
          rcases hm with hm | hm
          · exact recalculateWorld_msgs_allowed _ _ m hm
          · obtain ⟨kv, _, hkv⟩ := List.mem_flatMap.mp hm
            rw [mem_broadcastMsg hkv]
            trivial
        · exact recalculateWorld_msgs_allowed _ _ m hm
      · simp at hm
  | goodbye gid =>
    unfold handleMessage at hm
    dsimp only at hm
    split at hm
    · exact recalculateWorld_msgs_allowed _ _ m hm
    · simp at hm
  | layoutUpdate L =>
    unfold handleMessage at hm
    dsimp only at hm
    split at hm
    · simp at hm
    · simp at hm
  | sharedDataUpdate k v =>
    simp [handleMessage] at hm
  | leaderClaim cid ts =>
    simp [handleMessage] at hm

theorem tick_msgs_allowed (cfg : BootConfig) (ident : Identity) (now : Int)
    (ticks : Nat) (s : VirtualState) :
    ∀ m ∈ (tick cfg ident now ticks s).msgs, allowedOutboundMsg m := by
  intro m hm
  unfold tick at hm
  dsimp only at hm
  split at hm
  · exact publishSelf_msgs_allowed _ _ _ _ m hm
  · have hreq : ∀ m' ∈ (if !(publishSelf cfg ident now s).state.isLeader &&
        (publishSelf cfg ident now s).state.layout.isNone then
          broadcastMsg cfg (Msg.requestLayout ident.windowId)
        else ([] : List Msg)), allowedOutboundMsg m' := by
      intro m' hm'
      split at hm'
      · rw [mem_broadcastMsg hm']
        trivial
      · simp at hm'
    split at hm
    · split at hm
      · simp only [List.mem_append] at hm
        rcases hm with (hm | hm) | hm
        · exact publishSelf_msgs_allowed _ _ _ _ m hm
        · exact hreq m hm
        · exact recalculateWorld_msgs_allowed _ _ m hm
      · simp only [List.mem_append] at hm
        rcases hm with hm | hm
        · exact publishSelf_msgs_allowed _ _ _ _ m hm
        · exact hreq m hm
    · split at hm <;>
        · simp only [List.mem_append] at hm
          rcases hm with hm | hm
          · exact publishSelf_msgs_allowed _ _ _ _ m hm
          · exact hreq m hm

theorem cleanupFn_msgs_allowed (cfg : BootConfig) (ident : Identity) (now : Int)
    (s : VirtualState) :
    ∀ m ∈ (cleanupFn cfg ident now s).msgs, allowedOutboundMsg m := by
  intro m hm
  unfold cleanupFn at hm
  dsimp only at hm
  split at hm
  · split at hm
    · exact recalculateWorld_msgs_allowed _ _ m hm
    · simp at hm
  · simp at hm

/-- C10: no operation of the engine ever broadcasts a `LEADER_CLAIM` (or a
`HELLO`): every message emitted by the protocol handler, `publishSelf`,
`requestData`, the layout recompute, the lifecycle ticks, `setSharedData`,
`updateRect`, startup and `dispose` is a `HEARTBEAT`, `GOODBYE`,
`LAYOUT_UPDATE`, `SHARED_DATA_UPDATE` or `REQUEST_LAYOUT`; and the handler
reacts to an inbound `LEADER_CLAIM` by clearing `isLeader`, so step-down is
driven only by the periodic election. -/
theorem engine_never_emits_leaderClaim (cfg : BootConfig) (ident : Identity)
    (now : Int) (ev : Msg) (ticks : Nat) (k : String) (v : Json) (r : Rect)
    (s : VirtualState) :
    (∀ m ∈ (handleMessage cfg ident now ev s).msgs, allowedOutboundMsg m) ∧
    (∀ m ∈ (publishSelf cfg ident now s).msgs, allowedOutboundMsg m) ∧
    (∀ m ∈ (requestData cfg ident s).msgs, allowedOutboundMsg m) ∧
    (∀ m ∈ (recalculateWorld cfg s).msgs, allowedOutboundMsg m) ∧
    (∀ m ∈ (tick cfg ident now ticks s).msgs, allowedOutboundMsg m) ∧
    (∀ m ∈ (cleanupFn cfg ident now s).msgs, allowedOutboundMsg m) ∧
    (∀ m ∈ (setSharedData cfg k v s).msgs, allowedOutboundMsg m) ∧
    (∀ m ∈ (updateRect cfg ident now r s).msgs, allowedOutboundMsg m) ∧
    (∀ m ∈ (initializeNetworkStep cfg ident now s).msgs, allowedOutboundMsg m) ∧
    (∀ m ∈ (dispose cfg s).msgs, allowedOutboundMsg m) ∧
    (∀ cid ts, (handleMessage cfg ident now (.leaderClaim cid ts) s).state.isLeader = false) := by
  refine ⟨handleMessage_msgs_allowed cfg ident now ev s,
    publishSelf_msgs_allowed cfg ident now s, ?_,
    recalculateWorld_msgs_allowed cfg s,
    tick_msgs_allowed cfg ident now ticks s,
    cleanupFn_msgs_allowed cfg ident now s, ?_, ?_, ?_, ?_, ?_⟩
  · intro m hm
    rw [mem_broadcastMsg hm]
    trivial
  · intro m hm
    rw [mem_broadcastMsg hm]
    trivial
  · intro m hm
    unfold updateRect at hm
    dsimp only at hm
    split at hm
    · simp only [List.mem_append] at hm
      rcases hm with hm | hm
      · exact publishSelf_msgs_allowed _ _ _ _ m hm
      · exact recalculateWorld_msgs_allowed _ _ m hm
    · exact publishSelf_msgs_allowed _ _ _ _ m hm
  · intro m hm
    unfold initializeNetworkStep at hm
    dsimp only at hm
    simp only [List.mem_append] at hm
    rcases hm with (hm | hm) | hm
    · rw [mem_broadcastMsg hm]
      trivial
    · exact publishSelf_msgs_allowed _ _ _ _ m hm
    · exact publishSelf_msgs_allowed _ _ _ _ m hm
  · intro m hm
    rw [mem_broadcastMsg hm]
    trivial
  · intro cid ts
    simp [handleMessage]

/-- Witness for C10: applied at a concrete state; the heartbeat the engine
publishes is of an allowed type, and an inbound `LEADER_CLAIM` clears
leadership. -/
theorem engine_never_emits_leaderClaim_witness :
    (Msg.heartbeat
        { id := "A", createdAt := 0, lastSeen := 5, rect := ⟨0, 0, 800, 600⟩,
          timestamp := 5 } ∈
      (publishSelf { } ⟨"A", 0⟩ 5 (initialState "A" ⟨0, 0, 800, 600⟩ none)).msgs) ∧
    allowedOutboundMsg (Msg.heartbeat
      { id := "A", createdAt := 0, lastSeen := 5, rect := ⟨0, 0, 800, 600⟩,
        timestamp := 5 }) ∧
    (handleMessage { } ⟨"A", 0⟩ 5 (.leaderClaim "Z" 0)
        { initialState "A" ⟨0, 0, 800, 600⟩ none with isLeader := true }).state.isLeader =
      false :=
  ⟨by decide,
    (engine_never_emits_leaderClaim { } ⟨"A", 0⟩ 5 (.goodbye "x") 0 "k" Json.null
        ⟨0, 0, 1, 1⟩ (initialState "A" ⟨0, 0, 800, 600⟩ none)).2.1 _ (by decide),
    (engine_never_emits_leaderClaim { } ⟨"A", 0⟩ 5 (.goodbye "x") 0 "k" Json.null
        ⟨0, 0, 1, 1⟩ { initialState "A" ⟨0, 0, 800, 600⟩ none with
          isLeader := true }).2.2.2.2.2.2.2.2.2.2 "Z" 0⟩

/-! ## C6: grace period then lone self-election -/

/-- Every entry of the windows map belongs to this peer (true for a peer
that never receives an inbound message). -/
def onlySelfWindows (ident : Identity) (s : VirtualState) : Prop :=
  ∀ p ∈ s.windows, p.2.id = ident.windowId

theorem mem_listSet {α : Type} (m : List (String × α)) (k : String) (v : α) :
    ∀ p ∈ listSet m k v, p ∈ m ∨ p = (k, v) := by
  induction m with
  | nil =>
    intro p hp
    simp only [listSet, List.mem_singleton] at hp
    exact Or.inr hp
  | cons a tl ih =>
    intro p hp
    unfold listSet at hp
    split at hp
    · rcases List.mem_cons.mp hp with rfl | h
      · exact Or.inr rfl
      · exact Or.inl (List.mem_cons_of_mem _ h)
    · rcases List.mem_cons.mp hp with rfl | h
      · exact Or.inl (List.mem_cons_self _ _)
      · rcases ih p h with h' | h'
        · exact Or.inl (List.mem_cons_of_mem _ h')
        · exact Or.inr h'

theorem publishSelf_fields (cfg : BootConfig) (ident : Identity) (now : Int)
    (s : VirtualState) :
    (publishSelf cfg ident now s).state.isLeader = s.isLeader ∧
    (publishSelf cfg ident now s).state.leaderId = s.leaderId ∧
    (publishSelf cfg ident now s).state.layout = s.layout ∧
    (publishSelf cfg ident now s).state.winRect = s.winRect := by
  unfold publishSelf
  dsimp only
  split
  · exact ⟨rfl, rfl, rfl, rfl⟩
  · split
    · exact ⟨rfl, rfl, rfl, rfl⟩
    · exact ⟨rfl, rfl, rfl, rfl⟩

theorem publishSelf_msgs_net (cfg : BootConfig) (ident : Identity) (now : Int)
    (s : VirtualState) (hnet : cfg.hasNetwork = true) :
    ∃ w, (publishSelf cfg ident now s).msgs = [Msg.heartbeat w] := by
  unfold publishSelf
  dsimp only
  rw [if_neg (by simp [hnet])]
  split
  · exact ⟨_, rfl⟩
  · exact ⟨_, rfl⟩

theorem publishSelf_onlySelf (cfg : BootConfig) (ident : Identity) (now : Int)
    (s : VirtualState) (h : onlySelfWindows ident s) :
    onlySelfWindows ident (publishSelf cfg ident now s).state := by
  unfold publishSelf
  dsimp only
  split
  · exact h
  · split
    · intro p hp
      rcases mem_listSet _ _ _ p hp with h' | rfl
      · exact h p h'
      · rfl
    · exact h

/-- When every known window carries the caller's own id and the self
snapshot is fresh, the election returns the caller itself. -/
theorem selectLeader_selfOnly (allWindows : List WindowSnapshot)
    (me : WindowSnapshot) (timeout now : Int)
    (hids : ∀ w ∈ allWindows, w.id = me.id)
    (hme : now - me.lastSeen < timeout) :
    selectLeader allWindows me timeout now = ⟨some me.id, true⟩ := by
  have hmem : me ∈ activeCandidates allWindows me timeout now := by
    unfold activeCandidates
    exact List.mem_filter.mpr ⟨by simp, by simpa using hme⟩
  have hall : ∀ c ∈ activeCandidates allWindows me timeout now, c.id = me.id := by
    intro c hc
    have hc' := (List.mem_filter.mp hc).1
    rcases List.mem_append.mp hc' with h | h
    · exact hids c h
    · simp only [List.mem_singleton] at h
      rw [h]
  unfold selectLeader
  cases hs : sortCandidatesForLeadership (activeCandidates allWindows me timeout now) with
  | nil =>
    have := (sortCandidates_perm (activeCandidates allWindows me timeout now)).symm
    rw [hs] at this
    exact absurd (this.eq_nil ▸ hmem) (List.not_mem_nil me)
  | cons c tl =>
    have hcmem : c ∈ activeCandidates allWindows me timeout now :=
      (sortCandidates_perm _).mem_iff.mp (hs ▸ List.mem_cons_self c tl)
    have hcid := hall c hcmem
    simp [hcid]

theorem recalculateLocalView_flags (cfg : BootConfig) (s : VirtualState) :
    (recalculateLocalView cfg s).isLeader = s.isLeader ∧
    (recalculateLocalView cfg s).leaderId = s.leaderId := by
  unfold recalculateLocalView
  repeat' split
  all_goals exact ⟨rfl, rfl⟩

theorem recalculateWorld_flags (cfg : BootConfig) (s : VirtualState) :
    (recalculateWorld cfg s).state.isLeader = s.isLeader ∧
    (recalculateWorld cfg s).state.leaderId = s.leaderId := by
  unfold recalculateWorld
  dsimp only
  split
  · exact ⟨rfl, rfl⟩
  · split
    · exact ⟨rfl, rfl⟩
    · split
      · exact ⟨rfl, rfl⟩
      · exact recalculateLocalView_flags _ _

/-- A tick inside the grace period: publish the heartbeat, count up, no
election. -/
theorem tick_grace_inv (cfg : BootConfig) (ident : Identity) (now : Int)
    (ticks : Nat) (s : VirtualState) (h : ticks < 3) (hnet : cfg.hasNetwork = true)
    (hlead : s.isLeader = false) (hldr : s.leaderId = none)
    (honly : onlySelfWindows ident s) :
    (tick cfg ident now ticks s).ticks = ticks + 1 ∧
    (tick cfg ident now ticks s).state.isLeader = false ∧
    (tick cfg ident now ticks s).state.leaderId = none ∧
    onlySelfWindows ident (tick cfg ident now ticks s).state ∧
    ∃ w, (tick cfg ident now ticks s).msgs = [Msg.heartbeat w] := by
  have ht : tick cfg ident now ticks s =
      ⟨ticks + 1, (publishSelf cfg ident now s).state,
        (publishSelf cfg ident now s).msgs, true⟩ := by
    unfold tick
    dsimp only
    rw [if_pos h]
  rw [ht]
  obtain ⟨hf1, hf2, _, _⟩ := publishSelf_fields cfg ident now s
  exact ⟨rfl, by rw [hf1, hlead], by rw [hf2, hldr],
    publishSelf_onlySelf cfg ident now s honly,
    publishSelf_msgs_net cfg ident now s hnet⟩

/-- A tick past the grace period at a non-leader peer that has only ever
seen itself: the peer elects itself. -/
theorem tick_selfElect (cfg : BootConfig) (ident : Identity) (now : Int)
    (ticks : Nat) (s : VirtualState) (hticks : ¬ ticks < 3)
    (hlead : s.isLeader = false) (honly : onlySelfWindows ident s) :
    (tick cfg ident now ticks s).state.isLeader = true ∧
    (tick cfg ident now ticks s).state.leaderId = some ident.windowId := by
  unfold tick
  dsimp only
  rw [if_neg hticks]
  obtain ⟨hf1, _, _, _⟩ := publishSelf_fields cfg ident now s
  have hpl : (publishSelf cfg ident now s).state.isLeader = false := by rw [hf1, hlead]
  have honly' := publishSelf_onlySelf cfg ident now s honly
  have hsel : selectLeader ((publishSelf cfg ident now s).state.windows.map (·.2))
      { id := ident.windowId, createdAt := ident.createdAt, lastSeen := now,
        rect := (publishSelf cfg ident now s).state.winRect, timestamp := now }
      5000 now = ⟨some ident.windowId, true⟩ := by
    apply selectLeader_selfOnly
    · intro w hw
      obtain ⟨p, hp, rfl⟩ := List.mem_map.mp hw
      exact honly' p hp
    · simp
  rw [hsel]
  dsimp only
  rw [hpl]
  simp only [Bool.not_false, eq_self_iff_true, if_true]
  split
  · exact ⟨(recalculateWorld_flags cfg _).1, (recalculateWorld_flags cfg _).2⟩
  · rename_i hcond
    refine ⟨(recalculateWorld_flags cfg _).1, ?_⟩
    rw [(recalculateWorld_flags cfg _).2]
    simpa using not_not.mp hcond

/-- One heartbeat tick applied to a previous tick's result. -/
def tickStep (cfg : BootConfig) (ident : Identity) (now : Int)
    (r : TickResult) : TickResult :=
  tick cfg ident now r.ticks r.state

/-- The engine right after construction, before any tick: counter zero,
constructor store content, nothing sent yet. -/
def bootRes (cfg : BootConfig) (ident : Identity) (rect : Rect) : TickResult :=
  ⟨0, initialState ident.windowId rect cfg.staticLayout, [], true⟩

/-- C6: a peer that receives no inbound messages publishes one heartbeat
and skips the election on each of its first three ticks (`isLeader` stays
`false`, no leader recorded), and on the fourth tick elects itself:
`isLeader` becomes `true` and `leaderId` is its own window id. -/
theorem lone_peer_grace_then_elect (cfg : BootConfig) (ident : Identity)
    (rect : Rect) (t1 t2 t3 t4 : Int) (hnet : cfg.hasNetwork = true) :
    ((tickStep cfg ident t1 (bootRes cfg ident rect)).ticks = 1 ∧
      (tickStep cfg ident t1 (bootRes cfg ident rect)).state.isLeader = false ∧
      (tickStep cfg ident t1 (bootRes cfg ident rect)).state.leaderId = none ∧
      ∃ w, (tickStep cfg ident t1 (bootRes cfg ident rect)).msgs = [Msg.heartbeat w]) ∧
    ((tickStep cfg ident t2 (tickStep cfg ident t1 (bootRes cfg ident rect))).ticks = 2 ∧
      (tickStep cfg ident t2 (tickStep cfg ident t1
        (bootRes cfg ident rect))).state.isLeader = false ∧
      (tickStep cfg ident t2 (tickStep cfg ident t1
        (bootRes cfg ident rect))).state.leaderId = none ∧
      ∃ w, (tickStep cfg ident t2 (tickStep cfg ident t1
        (bootRes cfg ident rect))).msgs = [Msg.heartbeat w]) ∧
    ((tickStep cfg ident t3 (tickStep cfg ident t2 (tickStep cfg ident t1
        (bootRes cfg ident rect)))).ticks = 3 ∧
      (tickStep cfg ident t3 (tickStep cfg ident t2 (tickStep cfg ident t1
        (bootRes cfg ident rect)))).state.isLeader = false ∧
      (tickStep cfg ident t3 (tickStep cfg ident t2 (tickStep cfg ident t1
        (bootRes cfg ident rect)))).state.leaderId = none ∧
      ∃ w, (tickStep cfg ident t3 (tickStep cfg ident t2 (tickStep cfg ident t1
        (bootRes cfg ident rect)))).msgs = [Msg.heartbeat w]) ∧
    ((tickStep cfg ident t4 (tickStep cfg ident t3 (tickStep cfg ident t2
        (tickStep cfg ident t1 (bootRes cfg ident rect))))).state.isLeader = true ∧
      (tickStep cfg ident t4 (tickStep cfg ident t3 (tickStep cfg ident t2
        (tickStep cfg ident t1 (bootRes cfg ident rect))))).state.leaderId =
        some ident.windowId) := by
  have h0lead : (bootRes cfg ident rect).state.isLeader = false := rfl
  have h0ldr : (bootRes cfg ident rect).state.leaderId = none := rfl
  have h0only : onlySelfWindows ident (bootRes cfg ident rect).state := by
    intro p hp
    simp [bootRes, initialState] at hp
  have h1 := tick_grace_inv cfg ident t1 (bootRes cfg ident rect).ticks
    (bootRes cfg ident rect).state (by show (0 : Nat) < 3; norm_num) hnet h0lead h0ldr h0only
  obtain ⟨h1t, h1lead, h1ldr, h1only, h1msgs⟩ := h1
  have h1t' : (tickStep cfg ident t1 (bootRes cfg ident rect)).ticks = 1 := h1t
  have h2 := tick_grace_inv cfg ident t2
    (tickStep cfg ident t1 (bootRes cfg ident rect)).ticks
    (tickStep cfg ident t1 (bootRes cfg ident rect)).state
    (by rw [h1t']; norm_num) hnet h1lead h1ldr h1only
  obtain ⟨h2t, h2lead, h2ldr, h2only, h2msgs⟩ := h2
  have h2t' : (tickStep cfg ident t2 (tickStep cfg ident t1
      (bootRes cfg ident rect))).ticks = 2 := by
    rw [show (tickStep cfg ident t2 (tickStep cfg ident t1
      (bootRes cfg ident rect))).ticks =
        (tickStep cfg ident t1 (bootRes cfg ident rect)).ticks + 1 from h2t, h1t']
  have h3 := tick_grace_inv cfg ident t3
    (tickStep cfg ident t2 (tickStep cfg ident t1 (bootRes cfg ident rect))).ticks
    (tickStep cfg ident t2 (tickStep cfg ident t1 (bootRes cfg ident rect))).state
    (by rw [h2t']; norm_num) hnet h2lead h2ldr h2only
  obtain ⟨h3t, h3lead, h3ldr, h3only, h3msgs⟩ := h3
  have h3t' : (tickStep cfg ident t3 (tickStep cfg ident t2 (tickStep cfg ident t1
      (bootRes cfg ident rect)))).ticks = 3 := by
    rw [show (tickStep cfg ident t3 (tickStep cfg ident t2 (tickStep cfg ident t1
      (bootRes cfg ident rect)))).ticks =
        (tickStep cfg ident t2 (tickStep cfg ident t1
          (bootRes cfg ident rect))).ticks + 1 from h3t, h2t']
  have h4 := tick_selfElect cfg ident t4
    (tickStep cfg ident t3 (tickStep cfg ident t2 (tickStep cfg ident t1
      (bootRes cfg ident rect)))).ticks
    (tickStep cfg ident t3 (tickStep cfg ident t2 (tickStep cfg ident t1
      (bootRes cfg ident rect)))).state
    (by rw [h3t']; norm_num) h3lead h3only
  exact ⟨⟨h1t', h1lead, h1ldr, h1msgs⟩, ⟨h2t', h2lead, h2ldr, h2msgs⟩,
    ⟨h3t', h3lead, h3ldr, h3msgs⟩, h4.1, h4.2⟩

/-- Witness for C6 at the seed scenario: peer "A" born at time 0, ticks at
1000..4000 ms. -/
theorem lone_peer_grace_then_elect_witness :
    ({ } : BootConfig).hasNetwork = true ∧
    ((tickStep { } ⟨"A", 0⟩ 1000 (bootRes { } ⟨"A", 0⟩ ⟨0, 0, 800, 600⟩)).ticks = 1 ∧
      (tickStep { } ⟨"A", 0⟩ 1000
        (bootRes { } ⟨"A", 0⟩ ⟨0, 0, 800, 600⟩)).state.isLeader = false ∧
      (tickStep { } ⟨"A", 0⟩ 1000
        (bootRes { } ⟨"A", 0⟩ ⟨0, 0, 800, 600⟩)).state.leaderId = none ∧
      ∃ w, (tickStep { } ⟨"A", 0⟩ 1000
        (bootRes { } ⟨"A", 0⟩ ⟨0, 0, 800, 600⟩)).msgs = [Msg.heartbeat w]) ∧
    ((tickStep { } ⟨"A", 0⟩ 2000 (tickStep { } ⟨"A", 0⟩ 1000
        (bootRes { } ⟨"A", 0⟩ ⟨0, 0, 800, 600⟩))).ticks = 2 ∧
      (tickStep { } ⟨"A", 0⟩ 2000 (tickStep { } ⟨"A", 0⟩ 1000
        (bootRes { } ⟨"A", 0⟩ ⟨0, 0, 800, 600⟩))).state.isLeader = false ∧
      (tickStep { } ⟨"A", 0⟩ 2000 (tickStep { } ⟨"A", 0⟩ 1000
        (bootRes { } ⟨"A", 0⟩ ⟨0, 0, 800, 600⟩))).state.leaderId = none ∧
      ∃ w, (tickStep { } ⟨"A", 0⟩ 2000 (tickStep { } ⟨"A", 0⟩ 1000
        (bootRes { } ⟨"A", 0⟩ ⟨0, 0, 800, 600⟩))).msgs = [Msg.heartbeat w]) ∧
    ((tickStep { } ⟨"A", 0⟩ 3000 (tickStep { } ⟨"A", 0⟩ 2000 (tickStep { } ⟨"A", 0⟩ 1000
        (bootRes { } ⟨"A", 0⟩ ⟨0, 0, 800, 600⟩)))).ticks = 3 ∧
      (tickStep { } ⟨"A", 0⟩ 3000 (tickStep { } ⟨"A", 0⟩ 2000 (tickStep { } ⟨"A", 0⟩ 1000
        (bootRes { } ⟨"A", 0⟩ ⟨0, 0, 800, 600⟩)))).state.isLeader = false ∧
      (tickStep { } ⟨"A", 0⟩ 3000 (tickStep { } ⟨"A", 0⟩ 2000 (tickStep { } ⟨"A", 0⟩ 1000
        (bootRes { } ⟨"A", 0⟩ ⟨0, 0, 800, 600⟩)))).state.leaderId = none ∧
      ∃ w, (tickStep { } ⟨"A", 0⟩ 3000 (tickStep { } ⟨"A", 0⟩ 2000 (tickStep { } ⟨"A", 0⟩ 1000
        (bootRes { } ⟨"A", 0⟩ ⟨0, 0, 800, 600⟩)))).msgs = [Msg.heartbeat w]) ∧
    ((tickStep { } ⟨"A", 0⟩ 4000 (tickStep { } ⟨"A", 0⟩ 3000 (tickStep { } ⟨"A", 0⟩ 2000
        (tickStep { } ⟨"A", 0⟩ 1000
          (bootRes { } ⟨"A", 0⟩ ⟨0, 0, 800, 600⟩))))).state.isLeader = true ∧
      (tickStep { } ⟨"A", 0⟩ 4000 (tickStep { } ⟨"A", 0⟩ 3000 (tickStep { } ⟨"A", 0⟩ 2000
        (tickStep { } ⟨"A", 0⟩ 1000
          (bootRes { } ⟨"A", 0⟩ ⟨0, 0, 800, 600⟩))))).state.leaderId = some "A") :=
  ⟨rfl, lone_peer_grace_then_elect { } ⟨"A", 0⟩ ⟨0, 0, 800, 600⟩ 1000 2000 3000 4000 rfl⟩

/-! ## Percent-encoding (the JS `encodeURIComponent` / `decodeURIComponent`
builtins, modelled at the Unicode-scalar / UTF-8 byte level) -/

theorem toNat_ofNat_valid {n : Nat} (h : n.isValidChar) : (Char.ofNat n).toNat = n := by
  unfold Char.ofNat
  rw [dif_pos h]
  simp [Char.ofNatAux, Char.toNat, UInt32.toNat]

/-- `some (Char.ofNat n)` for a valid scalar value, `none` otherwise. -/
def mkChar (n : Nat) : Option Char :=
  if h : n.isValidChar then some (Char.ofNat n) else none

theorem mkChar_toNat (c : Char) : mkChar c.toNat = some c := by
  rw [mkChar, dif_pos (show Nat.isValidChar c.toNat from c.valid), Char.ofNat_toNat]

/-- Uppercase hexadecimal digit (as `encodeURIComponent` emits). -/
def hexDigitU (n : Nat) : Char :=
  if n < 10 then Char.ofNat (48 + n) else Char.ofNat (55 + n)

/-- Lowercase hexadecimal digit (as the `\u00XX` escapes of
`JSON.stringify` emit). -/
def hexDigitL (n : Nat) : Char :=
  if n < 10 then Char.ofNat (48 + n) else Char.ofNat (87 + n)

/-- Value of a hexadecimal digit character, either case accepted. -/
def hexVal (c : Char) : Option Nat :=
  if 48 ≤ c.toNat ∧ c.toNat ≤ 57 then some (c.toNat - 48)
  else if 65 ≤ c.toNat ∧ c.toNat ≤ 70 then some (c.toNat - 55)
  else if 97 ≤ c.toNat ∧ c.toNat ≤ 102 then some (c.toNat - 87)
  else none

theorem hexVal_hexDigitU {d : Nat} (h : d < 16) : hexVal (hexDigitU d) = some d := by
  interval_cases d <;> decide

theorem hexVal_hexDigitL {d : Nat} (h : d < 16) : hexVal (hexDigitL d) = some d := by
  interval_cases d <;> decide

/-- The UTF-8 bytes of a Unicode scalar value. -/
def utf8Bytes (n : Nat) : List Nat :=
  if n < 128 then [n]
  else if n < 2048 then [192 + n / 64, 128 + n % 64]
  else if n < 65536 then [224 + n / 4096, 128 + n / 64 % 64, 128 + n % 64]
  else [240 + n / 262144, 128 + n / 4096 % 64, 128 + n / 64 % 64, 128 + n % 64]

theorem utf8Bytes_lt {n : Nat} (h : n < 1114112) : ∀ b ∈ utf8Bytes n, b < 256 := by
  intro b hb
  unfold utf8Bytes at hb
  split at hb
  · simp at hb
    omega
  · split at hb
    · simp at hb
      rcases hb with rfl | rfl <;> omega
    · split at hb
      · simp at hb
        rcases hb with rfl | rfl | rfl <;> omega
      · simp at hb
        rcases hb with rfl | rfl | rfl | rfl <;> omega

/-- `%XY` for one byte. -/
def percentByte (b : Nat) : List Char :=
  ['%', hexDigitU (b / 16), hexDigitU (b % 16)]

/-- The characters `encodeURIComponent` leaves unescaped. -/
def uriUnreservedChar (c : Char) : Bool :=
  c.isAlpha || c.isDigit || c = '-' || c = '_' || c = '.' || c = '!' || c = '~' ||
    c = '*' || c = '\'' || c = '(' || c = ')'

/-- `encodeURIComponent` on one character: keep it when unreserved, else
percent-encode its UTF-8 bytes. -/
def encodeUriChar (c : Char) : List Char :=
  if uriUnreservedChar c then [c] else (utf8Bytes c.toNat).flatMap percentByte

/-- The JS `encodeURIComponent` builtin (modelled). -/
def encodeURIComponent (s : String) : String :=
  String.mk (s.toList.flatMap encodeUriChar)

/-- Intermediate token of `decodeURIComponent`: a literal character or a
percent-decoded byte. -/
inductive UriToken where
  | ch (c : Char)
  | byte (b : Nat)
  deriving DecidableEq, Repr

/-- First pass of `decodeURIComponent`: replace each `%XY` by a byte. -/
def uriTokenize : List Char → Option (List UriToken)
  | [] => some []
  | c :: rest =>
    if c = '%' then
      match rest with
      | h1 :: h2 :: rest' =>
        match hexVal h1, hexVal h2 with
        | some a, some b => (uriTokenize rest').map (fun t => UriToken.byte (16 * a + b) :: t)
        | _, _ => none
      | _ => none
    else (uriTokenize rest).map (fun t => UriToken.ch c :: t)
/-- A UTF-8 continuation byte. -/
def contByte (b : Nat) : Bool := 128 ≤ b && b < 192

/-- Decode one UTF-8-encoded scalar value (or pass one literal character)
from the token stream; `none` on a malformed sequence or at the end. -/
def utf8Step : List UriToken → Option (Char × List UriToken)
  | [] => none
  | .ch c :: rest => some (c, rest)
  | .byte b :: rest =>
    if b < 128 then (mkChar b).map (fun c => (c, rest))
    else if 192 ≤ b ∧ b < 224 then
      match rest with
      | .byte b1 :: rest' =>
        if contByte b1 then
          (mkChar ((b - 192) * 64 + (b1 - 128))).map (fun c => (c, rest'))
        else none
      | _ => none
    else if 224 ≤ b ∧ b < 240 then
      match rest with
      | .byte b1 :: .byte b2 :: rest' =>
        if contByte b1 && contByte b2 then
          (mkChar ((b - 224) * 4096 + (b1 - 128) * 64 + (b2 - 128))).map
            (fun c => (c, rest'))
        else none
      | _ => none
    else if 240 ≤ b ∧ b < 248 then
      match rest with
      | .byte b1 :: .byte b2 :: .byte b3 :: rest' =>
        if contByte b1 && contByte b2 && contByte b3 then
          (mkChar ((b - 240) * 262144 + (b1 - 128) * 4096 +
              (b2 - 128) * 64 + (b3 - 128))).map (fun c => (c, rest'))
        else none
      | _ => none
    else none

theorem utf8Step_shorter {toks : List UriToken} {c : Char} {rest : List UriToken}
    (h : utf8Step toks = some (c, rest)) : rest.length < toks.length := by
  unfold utf8Step at h
  repeat' split at h
  all_goals
    simp only [Option.map_eq_some', Option.some.injEq, reduceCtorEq, Prod.mk.injEq] at h
  all_goals
    first
    | (obtain ⟨a, -, -, rfl⟩ := h
       simp only [List.length_cons]
       omega)
    | (obtain ⟨-, rfl⟩ := h
       simp only [List.length_cons]
       omega)

/-- Second pass of `decodeURIComponent` with explicit fuel (each step of
`utf8Step` consumes at least one token). -/
def uriDetokAux : Nat → List UriToken → Option (List Char)
  | _, [] => some []
  | 0, _ :: _ => none
  | fuel + 1, t :: r =>
    match utf8Step (t :: r) with
    | some (c, rest) => (uriDetokAux fuel rest).map (fun l => c :: l)
    | none => none

/-- Second pass of `decodeURIComponent`: decode the token stream as UTF-8
byte runs and literal characters. -/
def uriDetok (toks : List UriToken) : Option (List Char) :=
  uriDetokAux toks.length toks

theorem uriDetokAux_congr : ∀ (f1 f2 : Nat) (toks : List UriToken),
    toks.length ≤ f1 → toks.length ≤ f2 → uriDetokAux f1 toks = uriDetokAux f2 toks := by
  intro f1
  induction f1 with
  | zero =>
    intro f2 toks h1 h2
    have htoks : toks = [] := List.eq_nil_of_length_eq_zero (Nat.le_zero.mp h1)
    subst htoks
    cases f2 <;> rfl
  | succ f1 ih =>
    intro f2 toks h1 h2
    cases toks with
    | nil => cases f2 <;> rfl
    | cons t r =>
      cases f2 with
      | zero => simp at h2
      | succ f2' =>
        rw [uriDetokAux, uriDetokAux]
        cases hs : utf8Step (t :: r) with
        | none => rfl
        | some pr =>
          obtain ⟨c, rest⟩ := pr
          have hlt := utf8Step_shorter hs
          simp only [List.length_cons] at h1 h2 hlt
          dsimp only
          rw [ih f2' rest (by omega) (by omega)]

/-- The one-step unfolding of `uriDetok`. -/
theorem uriDetok_eq (toks : List UriToken) :
    uriDetok toks = match utf8Step toks with
      | some (c, rest) => (uriDetok rest).map (fun l => c :: l)
      | none => if toks.isEmpty then some [] else none := by
  cases toks with
  | nil => rfl
  | cons t r =>
    show uriDetokAux (r.length + 1) (t :: r) = _
    rw [uriDetokAux]
    cases hs : utf8Step (t :: r) with
    | none => rfl
    | some pr =>
      obtain ⟨c, rest⟩ := pr
      have hlt := utf8Step_shorter hs
      simp only [List.length_cons] at hlt
      dsimp only
      rw [uriDetokAux_congr r.length rest.length rest (by omega) (le_refl _)]
      rfl

/-- `decodeURIComponent` at the character-list level. -/
def uriDecode (l : List Char) : Option (List Char) :=
  (uriTokenize l).bind uriDetok

/-- The JS `decodeURIComponent` builtin (modelled; a malformed escape or
byte sequence throws `URIError`, modelled as `none`). -/
def decodeURIComponent (s : String) : Option String :=
  (uriDecode s.toList).map String.mk

theorem uriTokenize_percent {b : Nat} (hb : b < 256) (cs : List Char) :
    uriTokenize (percentByte b ++ cs) =
      (uriTokenize cs).map (fun t => UriToken.byte b :: t) := by
  show uriTokenize ('%' :: hexDigitU (b / 16) :: hexDigitU (b % 16) :: cs) = _
  rw [uriTokenize.eq_def]
  dsimp only
  rw [if_pos rfl]
  have h1 : hexVal (hexDigitU (b / 16)) = some (b / 16) := hexVal_hexDigitU (by omega)
  have h2 : hexVal (hexDigitU (b % 16)) = some (b % 16) := hexVal_hexDigitU (by omega)
  rw [h1, h2]
  dsimp only
  have hby : 16 * (b / 16) + b % 16 = b := by omega
  rw [hby]

theorem uriTokenize_chOf {c : Char} (hc : ¬ c = '%') (cs : List Char) :
    uriTokenize (c :: cs) = (uriTokenize cs).map (fun t => UriToken.ch c :: t) := by
  rw [uriTokenize.eq_def]
  dsimp only
  rw [if_neg hc]

theorem uriTokenize_byteRun (bs : List Nat) (hb : ∀ b ∈ bs, b < 256) (cs : List Char) :
    uriTokenize (bs.flatMap percentByte ++ cs) =
      (uriTokenize cs).map (fun t => bs.map UriToken.byte ++ t) := by
  induction bs with
  | nil => simp
  | cons b tl ih =>
    rw [List.flatMap_cons, List.append_assoc,
      uriTokenize_percent (hb b (List.mem_cons_self _ _)),
      ih (fun x hx => hb x (List.mem_cons_of_mem _ hx))]
    cases uriTokenize cs <;> simp

theorem utf8Step_utf8 (c : Char) (toks : List UriToken) :
    utf8Step ((utf8Bytes c.toNat).map UriToken.byte ++ toks) = some (c, toks) := by
  have hvalid : Nat.isValidChar c.toNat := c.valid
  have hlt : c.toNat < 1114112 := by
    rcases hvalid with h | ⟨_, h⟩ <;> omega
  unfold utf8Bytes
  by_cases h1 : c.toNat < 128
  · rw [if_pos h1]
    show utf8Step (UriToken.byte c.toNat :: toks) = _
    unfold utf8Step
    dsimp only
    rw [if_pos h1, mkChar_toNat]
    rfl
  · rw [if_neg h1]
    by_cases h2 : c.toNat < 2048
    · rw [if_pos h2]
      show utf8Step (UriToken.byte (192 + c.toNat / 64) ::
        UriToken.byte (128 + c.toNat % 64) :: toks) = _
      unfold utf8Step
      dsimp only
      rw [if_neg (by omega), if_pos (by omega)]
      have hcont : contByte (128 + c.toNat % 64) = true := by
        simp only [contByte, Bool.and_eq_true, decide_eq_true_eq]
        omega
      rw [hcont]
      simp only [if_true]
      have hval : (192 + c.toNat / 64 - 192) * 64 + (128 + c.toNat % 64 - 128) =
          c.toNat := by omega
      rw [hval, mkChar_toNat]
      rfl
    · rw [if_neg h2]
      by_cases h3 : c.toNat < 65536
      · rw [if_pos h3]
        show utf8Step (UriToken.byte (224 + c.toNat / 4096) ::
          UriToken.byte (128 + c.toNat / 64 % 64) ::
          UriToken.byte (128 + c.toNat % 64) :: toks) = _
        unfold utf8Step
        dsimp only
        rw [if_neg (by omega), if_neg (by omega), if_pos (by omega)]
        have hcont : (contByte (128 + c.toNat / 64 % 64) &&
            contByte (128 + c.toNat % 64)) = true := by
          simp only [contByte, Bool.and_eq_true, decide_eq_true_eq]
          omega
        rw [hcont]
        simp only [if_true]
        have hval : (224 + c.toNat / 4096 - 224) * 4096 +
            (128 + c.toNat / 64 % 64 - 128) * 64 + (128 + c.toNat % 64 - 128) =
            c.toNat := by omega
        rw [hval, mkChar_toNat]
        rfl
      · rw [if_neg h3]
        show utf8Step (UriToken.byte (240 + c.toNat / 262144) ::
          UriToken.byte (128 + c.toNat / 4096 % 64) ::
          UriToken.byte (128 + c.toNat / 64 % 64) ::
          UriToken.byte (128 + c.toNat % 64) :: toks) = _
        unfold utf8Step
        dsimp only
        rw [if_neg (by omega), if_neg (by omega), if_neg (by omega),
          if_pos (by omega)]
        have hcont : (contByte (128 + c.toNat / 4096 % 64) &&
            contByte (128 + c.toNat / 64 % 64) &&
            contByte (128 + c.toNat % 64)) = true := by
          simp only [contByte, Bool.and_eq_true, decide_eq_true_eq]
          omega
        rw [hcont]
        simp only [if_true]
        have hval : (240 + c.toNat / 262144 - 240) * 262144 +
            (128 + c.toNat / 4096 % 64 - 128) * 4096 +
            (128 + c.toNat / 64 % 64 - 128) * 64 + (128 + c.toNat % 64 - 128) =
            c.toNat := by omega
        rw [hval, mkChar_toNat]
        rfl

theorem uriDetok_ch (c : Char) (toks : List UriToken) :
    uriDetok (UriToken.ch c :: toks) = (uriDetok toks).map (fun l => c :: l) := by
  rw [uriDetok_eq]
  rfl

theorem uriDetok_utf8 (c : Char) (toks : List UriToken) :
    uriDetok ((utf8Bytes c.toNat).map UriToken.byte ++ toks) =
      (uriDetok toks).map (fun l => c :: l) := by
  rw [uriDetok_eq, utf8Step_utf8]

theorem uriDecode_encode (l : List Char) :
    uriDecode (l.flatMap encodeUriChar) = some l := by
  induction l with
  | nil => rfl
  | cons c tl ih =>
    unfold uriDecode at ih ⊢
    rw [List.flatMap_cons]
    by_cases hu : uriUnreservedChar c
    · have hc : ¬ c = '%' := by
        intro h
        rw [h] at hu
        exact absurd hu (by decide)
      rw [show encodeUriChar c = [c] from by simp [encodeUriChar, hu],
        List.singleton_append, uriTokenize_chOf hc]
      cases htok : uriTokenize (tl.flatMap encodeUriChar) with
      | none =>
        rw [htok] at ih
        simp at ih
      | some toks =>
        rw [htok] at ih
        simp only [Option.map_some', Option.some_bind] at ih ⊢
        rw [uriDetok_ch, ih]
        rfl
    · have hbytes : ∀ b ∈ utf8Bytes c.toNat, b < 256 := by
        apply utf8Bytes_lt
        have hv : Nat.isValidChar c.toNat := c.valid
        rcases hv with h | ⟨_, h⟩ <;> omega
      rw [show encodeUriChar c = (utf8Bytes c.toNat).flatMap percentByte from by
          simp [encodeUriChar, hu],
        uriTokenize_byteRun _ hbytes]
      cases htok : uriTokenize (tl.flatMap encodeUriChar) with
      | none =>
        rw [htok] at ih
        simp at ih
      | some toks =>
        rw [htok] at ih
        simp only [Option.map_some', Option.some_bind] at ih ⊢
        rw [uriDetok_utf8, ih]
        rfl

theorem decodeURIComponent_encode (s : String) :
    decodeURIComponent (encodeURIComponent s) = some s := by
  unfold decodeURIComponent encodeURIComponent
  show (uriDecode (s.toList.flatMap encodeUriChar)).map String.mk = some s
  rw [uriDecode_encode]
  rfl

/-! ## JSON printing and parsing (the JS `JSON.stringify` / `JSON.parse`
builtins, restricted to integer numbers and modelled without whitespace;
the parser is slightly lenient — leading zeros and trailing commas are
accepted — which printed output never exercises) -/

/-- `JSON.stringify`'s escaping of one string character. -/
def escapeChar (c : Char) : List Char :=
  if c = '"' then ['\\', '"']
  else if c = '\\' then ['\\', '\\']
  else if c = '\x08' then ['\\', 'b']
  else if c = '\t' then ['\\', 't']
  else if c = '\n' then ['\\', 'n']
  else if c = '\x0c' then ['\\', 'f']
  else if c = '\r' then ['\\', 'r']
  else if c.toNat < 32 then
    ['\\', 'u', '0', '0', hexDigitL (c.toNat / 16), hexDigitL (c.toNat % 16)]
  else [c]

/-- A JSON string literal. -/
def quoteChars (s : String) : List Char :=
  '"' :: s.toList.flatMap escapeChar ++ ['"']

/-- Decimal digit character. -/
def digitChar10 (d : Nat) : Char := Char.ofNat (48 + d)

/-- Decimal rendering of a natural number (most significant digit first). -/
def natChars (n : Nat) : List Char :=
  if n = 0 then ['0']
  else (Nat.digits 10 n).reverse.map digitChar10

/-- `JSON.stringify` of an integer. -/
def intChars (i : Int) : List Char :=
  if i < 0 then '-' :: natChars i.natAbs else natChars i.toNat

mutual
/-- `JSON.stringify` (no whitespace; object keys in insertion order). -/
def jsonToChars : Json → List Char
  | .num i => intChars i
  | .str s => quoteChars s
  | .arr l => '[' :: jsonListChars l ++ [']']
  | .obj f => '\x7b' :: jsonFieldsChars f ++ ['\x7d']
  | .null => "null".toList
  | .bool true => "true".toList
  | .bool false => "false".toList

/-- Array body: comma-separated values. -/
def jsonListChars : JsonList → List Char
  | .nil => []
  | .cons a tl => jsonToChars a ++ jsonListSep tl

/-- The `,` separated continuation of an array body. -/
def jsonListSep : JsonList → List Char
  | .nil => []
  | .cons a tl => ',' :: (jsonToChars a ++ jsonListSep tl)

/-- Object body: comma-separated `"key":value` members. -/
def jsonFieldsChars : JsonFields → List Char
  | .nil => []
  | .cons k v tl => quoteChars k ++ ':' :: (jsonToChars v ++ jsonFieldsSep tl)

/-- The `,` separated continuation of an object body. -/
def jsonFieldsSep : JsonFields → List Char
  | .nil => []
  | .cons k v tl => ',' :: (quoteChars k ++ ':' :: (jsonToChars v ++ jsonFieldsSep tl))
end

/-- Value of a run of decimal digits. -/
def charsToNat (ds : List Char) : Nat :=
  ds.foldl (fun a c => 10 * a + (c.toNat - 48)) 0

/-- Parse a non-empty run of decimal digits. -/
def parseDigits (input : List Char) : Option (Nat × List Char) :=
  let ds := input.takeWhile (fun c => c.isDigit)
  if ds.isEmpty then none
  else some (charsToNat ds, input.dropWhile (fun c => c.isDigit))

/-- The value of a JSON short escape character. -/
def unescapeChar (e : Char) : Option Char :=
  if e = '"' then some '"'
  else if e = '\\' then some '\\'
  else if e = '/' then some '/'
  else if e = 'b' then some '\x08'
  else if e = 'f' then some '\x0c'
  else if e = 'n' then some '\n'
  else if e = 'r' then some '\r'
  else if e = 't' then some '\t'
  else none

/-- Read one character of a JSON string body: `some (none, rest)` at the
closing quote, `some (some c, rest)` for one (possibly escaped) character,
`none` on a malformed escape. -/
def strStep : List Char → Option (Option Char × List Char)
  | [] => none
  | c :: rest =>
    if c = '"' then some (none, rest)
    else if c = '\\' then
      match rest with
      | [] => none
      | e :: rest' =>
        if e = 'u' then
          match rest' with
          | h1 :: h2 :: h3 :: h4 :: rest2 =>
            match hexVal h1, hexVal h2, hexVal h3, hexVal h4 with
            | some a, some b1, some b2, some b3 =>
              match mkChar (4096 * a + 256 * b1 + 16 * b2 + b3) with
              | some u => some (some u, rest2)
              | none => none
            | _, _, _, _ => none
          | _ => none
        else
          match unescapeChar e with
          | some u => some (some u, rest')
          | none => none
    else some (some c, rest)

/-- The JSON string-body parser, with fuel (one unit per character). -/
def parseStringBodyAux : Nat → List Char → Option (List Char × List Char)
  | 0, _ => none
  | fuel + 1, input =>
    match strStep input with
    | some (none, rest) => some ([], rest)
    | some (some c, rest) => (parseStringBodyAux fuel rest).map (fun p => (c :: p.1, p.2))
    | none => none

/-- Parse a JSON string body (after the opening quote) up to and past the
closing quote. -/
def parseStringBody (input : List Char) : Option (List Char × List Char) :=
  parseStringBodyAux input.length input

/-- One layer of the JSON value parser, parameterized by the continuations
for array bodies and object bodies. -/
def valStep (pe : List Char → Option (JsonList × List Char))
    (pm : List Char → Option (JsonFields × List Char))
    (input : List Char) : Option (Json × List Char) :=
  match input with
  | [] => none
  | c :: rest =>
    if c.isDigit then
      match parseDigits (c :: rest) with
      | some (n, r) => some (.num (n : Int), r)
      | none => none
    else if c = '-' then
      match parseDigits rest with
      | some (n, r) => some (.num (-(n : Int)), r)
      | none => none
    else if c = '"' then
      match parseStringBody rest with
      | some (s, r) => some (.str (String.mk s), r)
      | none => none
    else if c = '[' then
      match rest with
      | [] => none
      | d :: r2 =>
        if d = ']' then some (.arr .nil, r2)
        else
          match pe (d :: r2) with
          | some (l, r) => some (.arr l, r)
          | none => none
    else if c = '\x7b' then
      match rest with
      | [] => none
      | d :: r2 =>
        if d = '\x7d' then some (.obj .nil, r2)
        else
          match pm (d :: r2) with
          | some (f, r) => some (.obj f, r)
          | none => none
    else if c = 'n' then
      match rest with
      | 'u' :: 'l' :: 'l' :: r => some (.null, r)
      | _ => none
    else if c = 't' then
      match rest with
      | 'r' :: 'u' :: 'e' :: r => some (.bool true, r)
      | _ => none
    else if c = 'f' then
      match rest with
      | 'a' :: 'l' :: 's' :: 'e' :: r => some (.bool false, r)
      | _ => none
    else none

/-- One layer of the array-body parser: a value, then `,` and more
elements or the closing `]`. -/
def elemsStep (pv : List Char → Option (Json × List Char))
    (pe : List Char → Option (JsonList × List Char))
    (input : List Char) : Option (JsonList × List Char) :=
  match pv input with
  | some (v, rest) =>
    match rest with
    | [] => none
    | d :: r2 =>
      if d = ',' then
        match pe r2 with
        | some (l, r) => some (.cons v l, r)
        | none => none
      else if d = ']' then some (.cons v .nil, r2)
      else none
  | none => none

/-- One layer of the object-body parser: `"key":value`, then `,` and more
members or the closing `}`. -/
def membersStep (pv : List Char → Option (Json × List Char))
    (pm : List Char → Option (JsonFields × List Char))
    (input : List Char) : Option (JsonFields × List Char) :=
  match input with
  | [] => none
  | c :: rest =>
    if c = '"' then
      match parseStringBody rest with
      | some (k, rest1) =>
        match rest1 with
        | [] => none
        | d1 :: rest2 =>
          if d1 = ':' then
            match pv rest2 with
            | some (v, rest3) =>
              match rest3 with
              | [] => none
              | d2 :: r4 =>
                if d2 = ',' then
                  match pm r4 with
                  | some (f, r) => some (.cons (String.mk k) v f, r)
                  | none => none
                else if d2 = '\x7d' then some (.cons (String.mk k) v .nil, r4)
                else none
            | none => none
          else none
      | none => none
    else none

mutual
/-- The JSON value parser, with fuel (one unit per nesting step). -/
def parseVal : Nat → List Char → Option (Json × List Char)
  | 0, _ => none
  | fuel + 1, input =>
    valStep (fun l => parseElems fuel l) (fun l => parseMembers fuel l) input

/-- The JSON array-body parser. -/
def parseElems : Nat → List Char → Option (JsonList × List Char)
  | 0, _ => none
  | fuel + 1, input =>
    elemsStep (fun l => parseVal fuel l) (fun l => parseElems fuel l) input

/-- The JSON object-body parser. -/
def parseMembers : Nat → List Char → Option (JsonFields × List Char)
  | 0, _ => none
  | fuel + 1, input =>
    membersStep (fun l => parseVal fuel l) (fun l => parseMembers fuel l) input
end

/-- `JSON.parse` at the character-list level: a full parse of the whole
input. -/
def jsonParseChars (l : List Char) : Option Json :=
  match parseVal (l.length + 1) l with
  | some (j, []) => some j
  | _ => none

/-- The JS `JSON.parse` builtin (modelled; a syntax error throws, modelled
as `none`). -/
def jsonParse (s : String) : Option Json :=
  jsonParseChars s.toList

mutual
/-- Fuel adequate for parsing a printed value (one unit per nesting step
of the printed tree). -/
def jsonFuel : Json → Nat
  | .null => 1
  | .bool _ => 1
  | .num _ => 1
  | .str _ => 1
  | .arr l => 1 + jsonListFuel l
  | .obj f => 1 + jsonFieldsFuel f

/-- Fuel adequate for an array body. -/
def jsonListFuel : JsonList → Nat
  | .nil => 0
  | .cons v tl => 1 + max (jsonFuel v) (jsonListFuel tl)

/-- Fuel adequate for an object body. -/
def jsonFieldsFuel : JsonFields → Nat
  | .nil => 0
  | .cons _ v tl => 1 + max (jsonFuel v) (jsonFieldsFuel tl)
end

theorem strStep_shorter {input : List Char} {x : Option Char} {rest : List Char}
    (h : strStep input = some (x, rest)) : rest.length < input.length := by
  unfold strStep at h
  repeat' split at h
  all_goals
    simp only [Option.some.injEq, reduceCtorEq, Prod.mk.injEq] at h
  all_goals
    obtain ⟨-, rfl⟩ := h
  all_goals
    simp only [List.length_cons]
    omega

theorem parseStringBodyAux_congr : ∀ (f1 f2 : Nat) (input : List Char),
    input.length ≤ f1 → input.length ≤ f2 →
    parseStringBodyAux f1 input = parseStringBodyAux f2 input := by
  intro f1
  induction f1 with
  | zero =>
    intro f2 input h1 h2
    have hin : input = [] := List.eq_nil_of_length_eq_zero (Nat.le_zero.mp h1)
    subst hin
    cases f2 with
    | zero => rfl
    | succ f2' =>
      rw [parseStringBodyAux]
      rfl
  | succ f1 ih =>
    intro f2 input h1 h2
    cases f2 with
    | zero =>
      have hin : input = [] := List.eq_nil_of_length_eq_zero (Nat.le_zero.mp h2)
      subst hin
      rw [parseStringBodyAux]
      rfl
    | succ f2' =>
      rw [parseStringBodyAux, parseStringBodyAux]
      cases hs : strStep input with
      | none => rfl
      | some pr =>
        obtain ⟨x, rest⟩ := pr
        have hlt := strStep_shorter hs
        cases x with
        | none => rfl
        | some c =>
          dsimp only
          rw [ih f2' rest (by omega) (by omega)]

/-- The one-step unfolding of `parseStringBody`. -/
theorem parseStringBody_eq (input : List Char) :
    parseStringBody input = match strStep input with
      | some (none, rest) => some ([], rest)
      | some (some c, rest) => (parseStringBody rest).map (fun p => (c :: p.1, p.2))
      | none => none := by
  cases input with
  | nil => rfl
  | cons t r =>
    show parseStringBodyAux (r.length + 1) (t :: r) = _
    rw [parseStringBodyAux]
    cases hs : strStep (t :: r) with
    | none => rfl
    | some pr =>
      obtain ⟨x, rest⟩ := pr
      have hlt := strStep_shorter hs
      simp only [List.length_cons] at hlt
      cases x with
      | none => rfl
      | some c =>
        dsimp only
        rw [parseStringBodyAux_congr r.length rest.length rest (by omega) (le_refl _)]
        rfl

theorem strStep_escape (c : Char) (rest : List Char) :
    strStep (escapeChar c ++ rest) = some (some c, rest) := by
  unfold escapeChar
  by_cases h1 : c = '"'
  · subst h1
    rw [if_pos rfl]
    rfl
  · rw [if_neg h1]
    by_cases h2 : c = '\\'
    · subst h2
      rw [if_pos rfl]
      rfl
    · rw [if_neg h2]
      by_cases h3 : c = '\x08'
      · subst h3
        rw [if_pos rfl]
        rfl
      · rw [if_neg h3]
        by_cases h4 : c = '\t'
        · subst h4
          rw [if_pos rfl]
          rfl
        · rw [if_neg h4]
          by_cases h5 : c = '\n'
          · subst h5
            rw [if_pos rfl]
            rfl
          · rw [if_neg h5]
            by_cases h6 : c = '\x0c'
            · subst h6
              rw [if_pos rfl]
              rfl
            · rw [if_neg h6]
              by_cases h7 : c = '\r'
              · subst h7
                rw [if_pos rfl]
                rfl
              · rw [if_neg h7]
                by_cases h8 : c.toNat < 32
                · rw [if_pos h8]
                  show strStep ('\\' :: 'u' :: '0' :: '0' ::
                    hexDigitL (c.toNat / 16) :: hexDigitL (c.toNat % 16) :: rest) = _
                  unfold strStep
                  dsimp only
                  rw [if_neg (by decide), if_pos rfl, if_pos rfl]
                  have e1 : hexVal '0' = some 0 := by decide
                  have e2 : hexVal (hexDigitL (c.toNat / 16)) = some (c.toNat / 16) :=
                    hexVal_hexDigitL (by omega)
                  have e3 : hexVal (hexDigitL (c.toNat % 16)) = some (c.toNat % 16) :=
                    hexVal_hexDigitL (by omega)
                  rw [e1, e2, e3]
                  dsimp only
                  have hv : 4096 * 0 + 256 * 0 + 16 * (c.toNat / 16) + c.toNat % 16 =
                      c.toNat := by omega
                  rw [hv, mkChar_toNat]
                · rw [if_neg h8]
                  show strStep (c :: rest) = _
                  unfold strStep
                  dsimp only
                  rw [if_neg h1, if_neg h2]

theorem parseStringBody_escape (l : List Char) (rest : List Char) :
    parseStringBody (l.flatMap escapeChar ++ '"' :: rest) = some (l, rest) := by
  induction l with
  | nil =>
    rw [List.flatMap_nil, List.nil_append, parseStringBody_eq]
    rfl
  | cons c tl ih =>
    rw [List.flatMap_cons, List.append_assoc, parseStringBody_eq, strStep_escape]
    dsimp only
    rw [ih]
    rfl

theorem digitChar10_isDigit {d : Nat} (h : d < 10) : (digitChar10 d).isDigit = true := by
  interval_cases d <;> decide

theorem digitChar10_toNat {d : Nat} (h : d < 10) : (digitChar10 d).toNat = 48 + d :=
  toNat_ofNat_valid (Or.inl (by omega))

theorem natChars_digits (n : Nat) : ∀ c ∈ natChars n, c.isDigit = true := by
  intro c hc
  unfold natChars at hc
  split at hc
  · simp only [List.mem_singleton] at hc
    subst hc
    decide
  · simp only [List.mem_map] at hc
    obtain ⟨d, hd, rfl⟩ := hc
    exact digitChar10_isDigit (Nat.digits_lt_base (by norm_num) (List.mem_reverse.mp hd))

theorem natChars_ne_nil (n : Nat) : natChars n ≠ [] := by
  unfold natChars
  split
  · simp
  · rename_i h
    simp only [ne_eq, List.map_eq_nil_iff, List.reverse_eq_nil_iff]
    exact Nat.digits_ne_nil_iff_ne_zero.mpr h

theorem foldr_ofDigits (l : List Nat) :
    l.foldr (fun d a => 10 * a + d) 0 = Nat.ofDigits 10 l := by
  induction l with
  | nil => simp [Nat.ofDigits]
  | cons x tl ih =>
    rw [List.foldr_cons, ih, Nat.ofDigits_cons]
    push_cast
    omega

theorem foldl_digits_eq : ∀ (l : List Nat) (a : Nat), (∀ d ∈ l, d < 10) →
    List.foldl (fun a c => 10 * a + (c.toNat - 48)) a (l.map digitChar10) =
    List.foldl (fun a d => 10 * a + d) a l := by
  intro l
  induction l with
  | nil =>
    intro a _
    rfl
  | cons d tl ih =>
    intro a h
    simp only [List.map_cons, List.foldl_cons]
    rw [digitChar10_toNat (h d (List.mem_cons_self _ _))]
    have hd : 48 + d - 48 = d := by omega
    rw [hd, ih _ (fun x hx => h x (List.mem_cons_of_mem _ hx))]

theorem charsToNat_natChars (n : Nat) : charsToNat (natChars n) = n := by
  unfold natChars
  split
  · rename_i h
    subst h
    decide
  · unfold charsToNat
    rw [foldl_digits_eq _ _
        (fun d hd => Nat.digits_lt_base (by norm_num) (List.mem_reverse.mp hd)),
      List.foldl_reverse]
    have : (Nat.digits 10 n).foldr (fun x y => 10 * y + x) 0 =
        (Nat.digits 10 n).foldr (fun d a => 10 * a + d) 0 := rfl
    rw [this, foldr_ofDigits]
    exact Nat.ofDigits_digits 10 n

theorem takeWhile_dropWhile_append {p : Char → Bool} : ∀ (l1 l2 : List Char),
    (∀ c ∈ l1, p c = true) → (∀ c, l2.head? = some c → p c = false) →
    (l1 ++ l2).takeWhile p = l1 ∧ (l1 ++ l2).dropWhile p = l2 := by
  intro l1
  induction l1 with
  | nil =>
    intro l2 _ h2
    constructor
    · cases l2 with
      | nil => rfl
      | cons c r => simp [List.takeWhile_cons, h2 c rfl]
    · cases l2 with
      | nil => rfl
      | cons c r => simp [List.dropWhile_cons, h2 c rfl]
  | cons c tl ih =>
    intro l2 h1 h2
    have hpc : p c = true := h1 c (List.mem_cons_self _ _)
    obtain ⟨ht, hd⟩ := ih l2 (fun x hx => h1 x (List.mem_cons_of_mem _ hx)) h2
    constructor
    · simp [List.takeWhile_cons, hpc, ht]
    · simp [List.dropWhile_cons, hpc, hd]

theorem parseDigits_print (n : Nat) (rest : List Char)
    (hrest : ∀ c, rest.head? = some c → c.isDigit = false) :
    parseDigits (natChars n ++ rest) = some (n, rest) := by
  obtain ⟨ht, hd⟩ := takeWhile_dropWhile_append (natChars n) rest (natChars_digits n) hrest
  unfold parseDigits
  simp only [ht, hd]
  rw [if_neg (by simpa [List.isEmpty_iff] using natChars_ne_nil n)]
  rw [charsToNat_natChars]

/-- The characters a printed JSON value can start with. -/
def valueStart (c : Char) : Bool :=
  c.isDigit || c = '-' || c = '"' || c = '[' || c = '\x7b' || c = 'n' || c = 't' || c = 'f'

theorem jsonToChars_head (j : Json) :
    ∃ c cs, jsonToChars j = c :: cs ∧ valueStart c = true := by
  cases j with
  | null => exact ⟨'n', _, rfl, by decide⟩
  | bool b =>
    cases b with
    | false => exact ⟨'f', _, rfl, by decide⟩
    | true => exact ⟨'t', _, rfl, by decide⟩
  | num i =>
    show ∃ c cs, intChars i = c :: cs ∧ _
    unfold intChars
    split
    · exact ⟨'-', _, rfl, by decide⟩
    · obtain ⟨c, cs, hc⟩ := List.exists_cons_of_ne_nil (natChars_ne_nil i.toNat)
      refine ⟨c, cs, hc, ?_⟩
      have hm : c ∈ natChars i.toNat := by
        rw [hc]
        exact List.mem_cons_self _ _
      have hdig := natChars_digits _ c hm
      simp [valueStart, hdig]
  | str s => exact ⟨'"', _, rfl, by decide⟩
  | arr l => exact ⟨'[', _, rfl, by decide⟩
  | obj f => exact ⟨'\x7b', _, rfl, by decide⟩

theorem valStep_num (pe : List Char → Option (JsonList × List Char))
    (pm : List Char → Option (JsonFields × List Char)) (i : Int) (rest : List Char)
    (hrest : ∀ c, rest.head? = some c → c.isDigit = false) :
    valStep pe pm (jsonToChars (.num i) ++ rest) = some (.num i, rest) := by
  show valStep pe pm (intChars i ++ rest) = _
  unfold intChars
  split
  · rename_i hneg
    rw [List.cons_append]
    unfold valStep
    dsimp only
    rw [if_neg (by decide), if_pos rfl, parseDigits_print _ _ hrest]
    dsimp only
    have h : -((i.natAbs : Nat) : Int) = i := by omega
    rw [h]
  · rename_i hneg
    obtain ⟨c, cs, hc⟩ := List.exists_cons_of_ne_nil (natChars_ne_nil i.toNat)
    have hdig : c.isDigit = true :=
      natChars_digits _ c (by rw [hc]; exact List.mem_cons_self _ _)
    rw [hc, List.cons_append]
    unfold valStep
    dsimp only
    rw [if_pos hdig, ← List.cons_append, ← hc, parseDigits_print _ _ hrest]
    dsimp only
    have h : ((i.toNat : Nat) : Int) = i := by omega
    rw [h]

theorem valStep_str (pe : List Char → Option (JsonList × List Char))
    (pm : List Char → Option (JsonFields × List Char)) (s : String) (rest : List Char) :
    valStep pe pm (jsonToChars (.str s) ++ rest) = some (.str s, rest) := by
  have hq : jsonToChars (.str s) ++ rest
      = '"' :: (s.toList.flatMap escapeChar ++ '"' :: rest) := by
    rw [jsonToChars, quoteChars]
    simp
  rw [hq]
  unfold valStep
  dsimp only
  rw [if_neg (by decide), if_neg (by decide), if_pos rfl, parseStringBody_escape]
  rfl

theorem valStep_arr_cons (pe : List Char → Option (JsonList × List Char))
    (pm : List Char → Option (JsonFields × List Char)) (a : Json) (tl : JsonList)
    (rest : List Char)
    (hpe : pe (jsonListChars (.cons a tl) ++ ']' :: rest) = some (.cons a tl, rest)) :
    valStep pe pm (jsonToChars (.arr (.cons a tl)) ++ rest)
      = some (.arr (.cons a tl), rest) := by
  obtain ⟨c0, cs0, hc0, hvs0⟩ := jsonToChars_head a
  have hne : ¬ (c0 = ']') := by
    intro h
    rw [h] at hvs0
    exact absurd hvs0 (by decide)
  have hbody : jsonListChars (.cons a tl) ++ ']' :: rest
      = c0 :: (cs0 ++ (jsonListSep tl ++ ']' :: rest)) := by
    rw [jsonListChars, hc0]
    simp
  have harr : jsonToChars (.arr (.cons a tl)) ++ rest
      = '[' :: (jsonListChars (.cons a tl) ++ ']' :: rest) := by
    rw [jsonToChars]
    simp
  rw [harr, hbody]
  unfold valStep
  dsimp only
  rw [if_neg (by decide), if_neg (by decide), if_neg (by decide), if_pos rfl]
  rw [if_neg hne, ← hbody, hpe]

theorem valStep_obj_cons (pe : List Char → Option (JsonList × List Char))
    (pm : List Char → Option (JsonFields × List Char)) (k : String) (v : Json)
    (tl : JsonFields) (rest : List Char)
    (hpm : pm (jsonFieldsChars (.cons k v tl) ++ '\x7d' :: rest)
        = some (.cons k v tl, rest)) :
    valStep pe pm (jsonToChars (.obj (.cons k v tl)) ++ rest)
      = some (.obj (.cons k v tl), rest) := by
  have hbody : jsonFieldsChars (.cons k v tl) ++ '\x7d' :: rest
      = '"' :: (k.toList.flatMap escapeChar ++
          '"' :: (':' :: (jsonToChars v ++ (jsonFieldsSep tl ++ '\x7d' :: rest)))) := by
    simp only [jsonFieldsChars, quoteChars]
    simp
  have hobj : jsonToChars (.obj (.cons k v tl)) ++ rest
      = '\x7b' :: (jsonFieldsChars (.cons k v tl) ++ '\x7d' :: rest) := by
    rw [jsonToChars]
    simp
  rw [hobj, hbody]
  unfold valStep
  dsimp only
  rw [if_neg (by decide), if_neg (by decide), if_neg (by decide), if_neg (by decide),
    if_pos rfl]
  rw [if_neg (by decide), ← hbody, hpm]

theorem elemsStep_last (pv : List Char → Option (Json × List Char))
    (pe : List Char → Option (JsonList × List Char)) (a : Json) (rest : List Char)
    (hpv : pv (jsonToChars a ++ ']' :: rest) = some (a, ']' :: rest)) :
    elemsStep pv pe (jsonListChars (.cons a .nil) ++ ']' :: rest)
      = some (.cons a .nil, rest) := by
  have heq : jsonListChars (.cons a .nil) ++ ']' :: rest = jsonToChars a ++ ']' :: rest := by
    simp only [jsonListChars, jsonListSep]
    simp
  rw [heq]
  unfold elemsStep
  rw [hpv]
  dsimp only
  rw [if_neg (by decide), if_pos rfl]

theorem elemsStep_more (pv : List Char → Option (Json × List Char))
    (pe : List Char → Option (JsonList × List Char)) (a b : Json) (tl2 : JsonList)
    (rest : List Char)
    (hpv : pv (jsonToChars a ++ ',' :: (jsonListChars (.cons b tl2) ++ ']' :: rest))
        = some (a, ',' :: (jsonListChars (.cons b tl2) ++ ']' :: rest)))
    (hpe : pe (jsonListChars (.cons b tl2) ++ ']' :: rest) = some (.cons b tl2, rest)) :
    elemsStep pv pe (jsonListChars (.cons a (.cons b tl2)) ++ ']' :: rest)
      = some (.cons a (.cons b tl2), rest) := by
  have heq : jsonListChars (.cons a (.cons b tl2)) ++ ']' :: rest
      = jsonToChars a ++ ',' :: (jsonListChars (.cons b tl2) ++ ']' :: rest) := by
    simp only [jsonListChars, jsonListSep]
    simp
  rw [heq]
  unfold elemsStep
  rw [hpv]
  dsimp only
  rw [if_pos rfl, hpe]

theorem membersStep_last (pv : List Char → Option (Json × List Char))
    (pm : List Char → Option (JsonFields × List Char)) (k : String) (v : Json)
    (rest : List Char)
    (hpv : pv (jsonToChars v ++ '\x7d' :: rest) = some (v, '\x7d' :: rest)) :
    membersStep pv pm (jsonFieldsChars (.cons k v .nil) ++ '\x7d' :: rest)
      = some (.cons k v .nil, rest) := by
  have heq : jsonFieldsChars (.cons k v .nil) ++ '\x7d' :: rest
      = '"' :: (k.toList.flatMap escapeChar ++
          '"' :: (':' :: (jsonToChars v ++ '\x7d' :: rest))) := by
    simp only [jsonFieldsChars, jsonFieldsSep, quoteChars]
    simp
  rw [heq]
  unfold membersStep
  dsimp only
  rw [if_pos rfl, parseStringBody_escape]
  dsimp only
  rw [if_pos rfl, hpv]
  dsimp only
  rw [if_neg (by decide), if_pos rfl]
  rfl

theorem membersStep_more (pv : List Char → Option (Json × List Char))
    (pm : List Char → Option (JsonFields × List Char)) (k : String) (v : Json)
    (k2 : String) (v2 : Json) (tl2 : JsonFields) (rest : List Char)
    (hpv : pv (jsonToChars v ++
          ',' :: (jsonFieldsChars (.cons k2 v2 tl2) ++ '\x7d' :: rest))
        = some (v, ',' :: (jsonFieldsChars (.cons k2 v2 tl2) ++ '\x7d' :: rest)))
    (hpm : pm (jsonFieldsChars (.cons k2 v2 tl2) ++ '\x7d' :: rest)
        = some (.cons k2 v2 tl2, rest)) :
    membersStep pv pm (jsonFieldsChars (.cons k v (.cons k2 v2 tl2)) ++ '\x7d' :: rest)
      = some (.cons k v (.cons k2 v2 tl2), rest) := by
  have heq : jsonFieldsChars (.cons k v (.cons k2 v2 tl2)) ++ '\x7d' :: rest
      = '"' :: (k.toList.flatMap escapeChar ++
          '"' :: (':' :: (jsonToChars v ++
            ',' :: (jsonFieldsChars (.cons k2 v2 tl2) ++ '\x7d' :: rest)))) := by
    simp only [jsonFieldsChars, jsonFieldsSep, quoteChars]
    simp
  rw [heq]
  unfold membersStep
  dsimp only
  rw [if_pos rfl, parseStringBody_escape]
  dsimp only
  rw [if_pos rfl, hpv]
  dsimp only
  rw [if_pos rfl, hpm]
  rfl

/-- Parsing inverts printing: with enough fuel, a printed value followed by a
non-digit (or nothing) parses back to itself, and likewise for non-empty
array and object bodies up to their closing bracket. -/
theorem parse_print : ∀ (fuel : Nat),
    (∀ (j : Json) (rest : List Char), jsonFuel j ≤ fuel →
      (∀ c, rest.head? = some c → c.isDigit = false) →
      parseVal fuel (jsonToChars j ++ rest) = some (j, rest)) ∧
    (∀ (l : JsonList) (rest : List Char), l ≠ JsonList.nil → jsonListFuel l ≤ fuel →
      parseElems fuel (jsonListChars l ++ ']' :: rest) = some (l, rest)) ∧
    (∀ (f : JsonFields) (rest : List Char), f ≠ JsonFields.nil → jsonFieldsFuel f ≤ fuel →
      parseMembers fuel (jsonFieldsChars f ++ '\x7d' :: rest) = some (f, rest)) := by
  intro fuel
  induction fuel with
  | zero =>
    refine ⟨?_, ?_, ?_⟩
    · intro j rest hf _
      exact absurd hf (by cases j <;> simp [jsonFuel])
    · intro l rest hl hf
      cases l with
      | nil => exact absurd rfl hl
      | cons a tl => exact absurd hf (by simp [jsonListFuel])
    · intro f rest hl hf
      cases f with
      | nil => exact absurd rfl hl
      | cons k v tl => exact absurd hf (by simp [jsonFieldsFuel])
  | succ fuel ih =>
    obtain ⟨ihv, ihe, ihm⟩ := ih
    refine ⟨?_, ?_, ?_⟩
    · intro j rest hf hrest
      rw [parseVal]
      cases j with
      | null => rfl
      | bool b => cases b <;> rfl
      | num i => exact valStep_num _ _ i rest hrest
      | str s => exact valStep_str _ _ s rest
      | arr l =>
        cases l with
        | nil => rfl
        | cons a tl =>
          have hle : jsonListFuel (JsonList.cons a tl) ≤ fuel := by
            simp only [jsonFuel] at hf
            omega
          exact valStep_arr_cons _ _ a tl rest
            (ihe _ rest (by intro h; exact JsonList.noConfusion h) hle)
      | obj f =>
        cases f with
        | nil => rfl
        | cons k v tl =>
          have hle : jsonFieldsFuel (JsonFields.cons k v tl) ≤ fuel := by
            simp only [jsonFuel] at hf
            omega
          exact valStep_obj_cons _ _ k v tl rest
            (ihm _ rest (by intro h; exact JsonFields.noConfusion h) hle)
    · intro l rest hl hf
      cases l with
      | nil => exact absurd rfl hl
      | cons a tl =>
        rw [parseElems]
        have hfa : jsonFuel a ≤ fuel := by
          simp only [jsonListFuel] at hf
          omega
        cases tl with
        | nil =>
          exact elemsStep_last _ _ a rest (ihv a (']' :: rest) hfa
            (by intro c hc; simp only [List.head?, Option.some.injEq] at hc
                rw [← hc]; decide))
        | cons b tl2 =>
          have hfb : jsonListFuel (JsonList.cons b tl2) ≤ fuel := by
            simp only [jsonListFuel] at hf ⊢
            omega
          exact elemsStep_more _ _ a b tl2 rest
            (ihv a _ hfa
              (by intro c hc; simp only [List.head?, Option.some.injEq] at hc
                  rw [← hc]; decide))
            (ihe _ rest (by intro h; exact JsonList.noConfusion h) hfb)
    · intro f rest hl hf
      cases f with
      | nil => exact absurd rfl hl
      | cons k v tl =>
        rw [parseMembers]
        have hfv : jsonFuel v ≤ fuel := by
          simp only [jsonFieldsFuel] at hf
          omega
        cases tl with
        | nil =>
          exact membersStep_last _ _ k v rest (ihv v ('\x7d' :: rest) hfv
            (by intro c hc; simp only [List.head?, Option.some.injEq] at hc
                rw [← hc]; decide))
        | cons k2 v2 tl2 =>
          have hfm : jsonFieldsFuel (JsonFields.cons k2 v2 tl2) ≤ fuel := by
            simp only [jsonFieldsFuel] at hf ⊢
            omega
          exact membersStep_more _ _ k v k2 v2 tl2 rest
            (ihv v _ hfv
              (by intro c hc; simp only [List.head?, Option.some.injEq] at hc
                  rw [← hc]; decide))
            (ihm _ rest (by intro h; exact JsonFields.noConfusion h) hfm)

mutual
/-- The fuel needed to reparse a printed value is covered by its length. -/
theorem jsonFuel_le : ∀ j : Json, jsonFuel j ≤ (jsonToChars j).length
  | .null => by decide
  | .bool true => by decide
  | .bool false => by decide
  | .num i => by
    rw [jsonFuel, jsonToChars]
    have hlen := List.length_pos.mpr (natChars_ne_nil i.toNat)
    have hlen2 := List.length_pos.mpr (natChars_ne_nil i.natAbs)
    unfold intChars
    split
    · simp only [List.length_cons]
      omega
    · omega
  | .str s => by
    rw [jsonFuel, jsonToChars]
    simp [quoteChars]
  | .arr l => by
    have h := jsonListFuel_le l
    rw [jsonFuel, jsonToChars]
    simp only [List.length_cons, List.length_append, List.length_singleton]
    omega
  | .obj f => by
    have h := jsonFieldsFuel_le f
    rw [jsonFuel, jsonToChars]
    simp only [List.length_cons, List.length_append, List.length_singleton]
    omega

/-- Array-body fuel bound against the printed body plus closing bracket. -/
theorem jsonListFuel_le : ∀ l : JsonList, jsonListFuel l ≤ (jsonListChars l).length + 1
  | .nil => by
    rw [jsonListFuel]
    omega
  | .cons a tl => by
    have ha := jsonFuel_le a
    have ht := jsonListFuel_le_sep tl
    rw [jsonListFuel, jsonListChars]
    simp only [List.length_append]
    omega

/-- Array-body fuel bound against the printed separator-led continuation. -/
theorem jsonListFuel_le_sep : ∀ l : JsonList, jsonListFuel l ≤ (jsonListSep l).length
  | .nil => by
    rw [jsonListFuel]
    omega
  | .cons a tl => by
    have ha := jsonFuel_le a
    have ht := jsonListFuel_le_sep tl
    rw [jsonListFuel, jsonListSep]
    simp only [List.length_cons, List.length_append]
    omega

/-- Object-body fuel bound against the printed body plus closing bracket. -/
theorem jsonFieldsFuel_le : ∀ f : JsonFields, jsonFieldsFuel f ≤ (jsonFieldsChars f).length + 1
  | .nil => by
    rw [jsonFieldsFuel]
    omega
  | .cons k v tl => by
    have hv := jsonFuel_le v
    have ht := jsonFieldsFuel_le_sep tl
    rw [jsonFieldsFuel, jsonFieldsChars]
    simp only [List.length_cons, List.length_append]
    omega

/-- Object-body fuel bound against the printed separator-led continuation. -/
theorem jsonFieldsFuel_le_sep : ∀ f : JsonFields, jsonFieldsFuel f ≤ (jsonFieldsSep f).length
  | .nil => by
    rw [jsonFieldsFuel]
    omega
  | .cons k v tl => by
    have hv := jsonFuel_le v
    have ht := jsonFieldsFuel_le_sep tl
    rw [jsonFieldsFuel, jsonFieldsSep]
    simp only [List.length_cons, List.length_append]
    omega
end

/-- `JSON.parse ∘ JSON.stringify` is the identity on modelled JSON values. -/
theorem jsonParseChars_print (j : Json) : jsonParseChars (jsonToChars j) = some j := by
  unfold jsonParseChars
  have hf : jsonFuel j ≤ (jsonToChars j).length + 1 :=
    le_trans (jsonFuel_le j) (Nat.le_succ _)
  have h := (parse_print ((jsonToChars j).length + 1)).1 j [] hf
    (by intro c hc; exact Option.noConfusion hc)
  rw [List.append_nil] at h
  rw [h]

/-! ## Layout descriptor encode/decode (`encodeVflToUrlParam` /
`decodeVflFromUrlParam` from `vfl.ts`).  `JSON.stringify` emits the keys of
the runtime object in insertion order; we model the canonical order of the
zod schemas (`v, frame, screens`; rects `x, y, w, h`; screens additionally
`id` then the optional `scale`).  `LayoutZ.parse` is modelled as raw
extraction of the schema fields (unknown keys are stripped, wrong shapes
throw) followed by the `layoutZValid` checks. -/

/-- `JSON.stringify` of a `Rect`. -/
def rectToJson (r : Rect) : Json :=
  .obj (.cons "x" (.num r.x) (.cons "y" (.num r.y)
    (.cons "w" (.num r.w) (.cons "h" (.num r.h) .nil))))

/-- `JSON.stringify` of a `VflScreen` (the optional `scale` key is present
only when set). -/
def screenToJson (s : VflScreen) : Json :=
  .obj (.cons "x" (.num s.x) (.cons "y" (.num s.y)
    (.cons "w" (.num s.w) (.cons "h" (.num s.h)
      (.cons "id" (.str s.id)
        (match s.scale with
         | some sc => .cons "scale" (.num sc) .nil
         | none => .nil))))))

/-- The screens array as a JSON array. -/
def screensToJsonList : List VflScreen → JsonList
  | [] => .nil
  | s :: tl => .cons (screenToJson s) (screensToJsonList tl)

/-- `JSON.stringify` of a `VflLayout` (with its literal `v: 1`). -/
def layoutToJson (L : VflLayout) : Json :=
  .obj (.cons "v" (.num 1) (.cons "frame" (rectToJson L.frame)
    (.cons "screens" (.arr (screensToJsonList L.screens)) .nil)))

/-- First binding of a key in a JSON object. -/
def fieldsLookup : JsonFields → String → Option Json
  | .nil, _ => none
  | .cons k v tl, key => if k = key then some v else fieldsLookup tl key

/-- `RectZ` raw extraction: the four numeric fields. -/
def jsonToRect (j : Json) : Option Rect :=
  match j with
  | .obj f =>
    match fieldsLookup f "x", fieldsLookup f "y", fieldsLookup f "w", fieldsLookup f "h" with
    | some (.num x), some (.num y), some (.num w), some (.num h) => some ⟨x, y, w, h⟩
    | _, _, _, _ => none
  | _ => none

/-- `ScreenZ` raw extraction: rect fields, the `id` string and the
optional numeric `scale`. -/
def jsonToScreen (j : Json) : Option VflScreen :=
  match j with
  | .obj f =>
    match fieldsLookup f "x", fieldsLookup f "y", fieldsLookup f "w", fieldsLookup f "h",
        fieldsLookup f "id" with
    | some (.num x), some (.num y), some (.num w), some (.num h), some (.str id) =>
      match fieldsLookup f "scale" with
      | some (.num sc) => some ⟨id, x, y, w, h, some sc⟩
      | some _ => none
      | none => some ⟨id, x, y, w, h, none⟩
    | _, _, _, _, _ => none
  | _ => none

/-- Raw extraction of a screens array. -/
def jsonListToScreens : JsonList → Option (List VflScreen)
  | .nil => some []
  | .cons j tl =>
    match jsonToScreen j, jsonListToScreens tl with
    | some s, some l => some (s :: l)
    | _, _ => none

/-- `LayoutZ.parse` of a decoded JSON value: the literal `v: 1`, a frame
rect and a screens array, then the `layoutZValid` checks (a zod failure
throws, modelled as `none`). -/
def jsonToLayout (j : Json) : Option VflLayout :=
  match j with
  | .obj f =>
    match fieldsLookup f "v", fieldsLookup f "frame", fieldsLookup f "screens" with
    | some (.num v), some jf, some (.arr l) =>
      if v = 1 then
        match jsonToRect jf, jsonListToScreens l with
        | some frame, some screens =>
          if layoutZValid ⟨frame, screens⟩ then some ⟨frame, screens⟩ else none
        | _, _ => none
      else none
    | _, _, _ => none
  | _ => none

/-- `encodeVflToUrlParam` from `vfl.ts`: validate, stringify, percent-encode
and prefix with `vfl1.` (the `LayoutZ.parse` throw is modelled as `none`). -/
def encodeVflToUrlParam (layout : VflLayout) : Option String :=
  if layoutZValid layout then
    some (String.mk ('v' :: 'f' :: 'l' :: '1' :: '.' ::
      (encodeURIComponent (String.mk (jsonToChars (layoutToJson layout)))).toList))
  else none

/-- `decodeVflFromUrlParam` at the character-list level: the `vfl1.` prefix
check, percent-decode, `JSON.parse` and `LayoutZ.parse`, any failure giving
`none`. -/
def decodeVflChars (l : List Char) : Option VflLayout :=
  match l with
  | c1 :: c2 :: c3 :: c4 :: c5 :: payload =>
    if c1 = 'v' ∧ c2 = 'f' ∧ c3 = 'l' ∧ c4 = '1' ∧ c5 = '.' then
      match uriDecode payload with
      | some json =>
        match jsonParseChars json with
        | some parsed => jsonToLayout parsed
        | none => none
      | none => none
    else none
  | _ => none

/-- `decodeVflFromUrlParam` from `vfl.ts`. -/
def decodeVflFromUrlParam (param : String) : Option VflLayout :=
  decodeVflChars param.toList

theorem jsonToRect_print (r : Rect) : jsonToRect (rectToJson r) = some r := rfl

theorem jsonToScreen_print (s : VflScreen) : jsonToScreen (screenToJson s) = some s := by
  obtain ⟨sid, sx, sy, sw, sh, ssc⟩ := s
  cases ssc <;> rfl

theorem jsonListToScreens_print : ∀ ss : List VflScreen,
    jsonListToScreens (screensToJsonList ss) = some ss
  | [] => rfl
  | s :: tl => by
    rw [screensToJsonList, jsonListToScreens, jsonToScreen_print, jsonListToScreens_print tl]

theorem jsonToLayout_print (L : VflLayout) (h : layoutZValid L = true) :
    jsonToLayout (layoutToJson L) = some L := by
  have h1 : jsonToLayout (layoutToJson L) =
      (match jsonToRect (rectToJson L.frame),
          jsonListToScreens (screensToJsonList L.screens) with
        | some frame, some screens =>
          if layoutZValid ⟨frame, screens⟩ then some ⟨frame, screens⟩ else none
        | _, _ => none) := rfl
  rw [h1, jsonToRect_print, jsonListToScreens_print]
  dsimp only
  rw [if_pos (show layoutZValid ⟨L.frame, L.screens⟩ = true from h)]

theorem jsonToLayout_valid {j : Json} {L : VflLayout} (h : jsonToLayout j = some L) :
    layoutZValid L = true := by
  unfold jsonToLayout at h
  repeat' split at h
  all_goals first
    | exact Option.noConfusion h
    | (simp only [Option.some.injEq] at h
       subst h
       assumption)

theorem decodeVflChars_wrongPrefix (l : List Char)
    (hpre : List.isPrefixOf ['v', 'f', 'l', '1', '.'] l = false) : decodeVflChars l = none := by
  cases l with
  | nil => rfl
  | cons c1 t1 =>
    cases t1 with
    | nil => rfl
    | cons c2 t2 =>
      cases t2 with
      | nil => rfl
      | cons c3 t3 =>
        cases t3 with
        | nil => rfl
        | cons c4 t4 =>
          cases t4 with
          | nil => rfl
          | cons c5 payload =>
            unfold decodeVflChars
            dsimp only
            rw [if_neg]
            intro hand
            obtain ⟨rfl, rfl, rfl, rfl, rfl⟩ := hand
            simp [List.isPrefixOf] at hpre

theorem decodeVfl_encode (L : VflLayout) (h : layoutZValid L = true) :
    (encodeVflToUrlParam L).bind decodeVflFromUrlParam = some L := by
  rw [encodeVflToUrlParam, if_pos h]
  show decodeVflChars ('v' :: 'f' :: 'l' :: '1' :: '.' ::
    (jsonToChars (layoutToJson L)).flatMap encodeUriChar) = some L
  unfold decodeVflChars
  dsimp only
  rw [if_pos ⟨rfl, rfl, rfl, rfl, rfl⟩]
  show (match uriDecode ((jsonToChars (layoutToJson L)).flatMap encodeUriChar) with
    | some json =>
      match jsonParseChars json with
      | some parsed => jsonToLayout parsed
      | none => none
    | none => none) = some L
  rw [uriDecode_encode]
  dsimp only
  rw [jsonParseChars_print]
  dsimp only
  rw [jsonToLayout_print L h]

theorem decodeVfl_valid (param : String) (L : VflLayout)
    (h : decodeVflFromUrlParam param = some L) : layoutZValid L = true := by
  unfold decodeVflFromUrlParam decodeVflChars at h
  repeat' split at h
  all_goals first
    | exact Option.noConfusion h
    | exact jsonToLayout_valid h

/-- C8: for every layout satisfying the `LayoutZ` schema the URL-parameter
encode/decode round-trips; decoding a string that does not carry the
`vfl1.` prefix yields `none`; and every successful decode satisfies the
schema, so a descriptor failing schema validation yields `none`. -/
theorem vfl_url_roundtrip :
    (∀ L : VflLayout, layoutZValid L = true →
      (encodeVflToUrlParam L).bind decodeVflFromUrlParam = some L) ∧
    (∀ param : String, List.isPrefixOf ['v', 'f', 'l', '1', '.'] param.toList = false →
      decodeVflFromUrlParam param = none) ∧
    (∀ (param : String) (L : VflLayout),
      decodeVflFromUrlParam param = some L → layoutZValid L = true) :=
  ⟨decodeVfl_encode,
   fun param hpre => decodeVflChars_wrongPrefix param.toList hpre,
   decodeVfl_valid⟩

set_option maxRecDepth 100000 in
/-- Witness for C8 at concrete inputs: a one-screen layout round-trips, a
prefix-less string decodes to `none`, and a concrete decoded parameter is
schema-valid. -/
theorem vfl_url_roundtrip_witness :
    (encodeVflToUrlParam ⟨⟨0, 0, 10, 10⟩, [⟨"a", 0, 0, 10, 10, none⟩]⟩).bind
        decodeVflFromUrlParam = some ⟨⟨0, 0, 10, 10⟩, [⟨"a", 0, 0, 10, 10, none⟩]⟩ ∧
    decodeVflFromUrlParam "layout" = none ∧
    layoutZValid ⟨⟨0, 0, 5, 5⟩, [⟨"b", 0, 0, 5, 5, none⟩]⟩ = true :=
  ⟨vfl_url_roundtrip.1 ⟨⟨0, 0, 10, 10⟩, [⟨"a", 0, 0, 10, 10, none⟩]⟩ (by decide),
   vfl_url_roundtrip.2.1 "layout" (by decide),
   vfl_url_roundtrip.2.2
     "vfl1.%7B%22v%22%3A1%2C%22frame%22%3A%7B%22x%22%3A0%2C%22y%22%3A0%2C%22w%22%3A5%2C%22h%22%3A5%7D%2C%22screens%22%3A%5B%7B%22x%22%3A0%2C%22y%22%3A0%2C%22w%22%3A5%2C%22h%22%3A5%2C%22id%22%3A%22b%22%7D%5D%7D"
     ⟨⟨0, 0, 5, 5⟩, [⟨"b", 0, 0, 5, 5, none⟩]⟩ (by decide)⟩

set_option maxRecDepth 100000 in
/-- Counterexample to C2: a boot descriptor that `decodeVflFromUrlParam`
accepts (it passes the `LayoutZ` schema) whose frame is strictly larger
than the union of its screens; the engine constructor installs it verbatim
as the store layout, so the claimed frame/union invariant fails on the
static-layout path. -/
theorem static_layout_breaks_frame_invariant :
    decodeVflFromUrlParam
        "vfl1.%7B%22v%22%3A1%2C%22frame%22%3A%7B%22x%22%3A0%2C%22y%22%3A0%2C%22w%22%3A10%2C%22h%22%3A10%7D%2C%22screens%22%3A%5B%7B%22x%22%3A0%2C%22y%22%3A0%2C%22w%22%3A5%2C%22h%22%3A5%2C%22id%22%3A%22a%22%7D%5D%7D"
      = some ⟨⟨0, 0, 10, 10⟩, [⟨"a", 0, 0, 5, 5, none⟩]⟩ ∧
    (initialState "A" ⟨0, 0, 100, 100⟩
        (some ⟨⟨0, 0, 10, 10⟩, [⟨"a", 0, 0, 5, 5, none⟩]⟩)).layout
      = some ⟨⟨0, 0, 10, 10⟩, [⟨"a", 0, 0, 5, 5, none⟩]⟩ ∧
    (⟨⟨0, 0, 10, 10⟩, [⟨"a", 0, 0, 5, 5, none⟩]⟩ : VflLayout).frame
      ≠ unionRects ((⟨⟨0, 0, 10, 10⟩, [⟨"a", 0, 0, 5, 5, none⟩]⟩ : VflLayout).screens.map
          VflScreen.toRect) :=
  ⟨by decide, rfl, by decide⟩

/-- Witness for the amended C2 theorem at a concrete dynamic boot. -/
theorem recalculateWorld_dynamic_invariant_witness :
    (⟨none, none, none, none, true⟩ : BootConfig).staticLayout = none ∧
    ((recalculateWorld ⟨none, none, none, none, true⟩
          (initialState "A" ⟨0, 0, 100, 100⟩ none)).state.layout
        = (initialState "A" ⟨0, 0, 100, 100⟩ none).layout ∨
      ∃ L, (recalculateWorld ⟨none, none, none, none, true⟩
              (initialState "A" ⟨0, 0, 100, 100⟩ none)).state.layout = some L ∧
        L.frame = unionRects (L.screens.map VflScreen.toRect) ∧
        ∀ scr ∈ L.screens, 0 < scr.w ∧ 0 < scr.h) :=
  ⟨rfl, recalculateWorld_dynamic_invariant ⟨none, none, none, none, true⟩
    (initialState "A" ⟨0, 0, 100, 100⟩ none) rfl⟩

end WindowMesh
